import Mathlib

/-!
Verification of the rv32i-sim simulator core against its specification.

The Rust sources are shallowly embedded: machine `u32` values are `Nat`
taken modulo `2^32`, machine `i32` values are `Int` in `[-2^31, 2^31)`,
fallible operations return `Except`/`Option`, and the stateful memory
hierarchy is explicit state passing.  Rust arithmetic that is checked in
debug builds (shift-amount overflow on the bare `<<`/`>>` operators) is
modelled as `Option`, with `none` standing for the arithmetic-overflow
panic; operations the source spells with `wrapping_*` are modelled with
explicit `% 2^32` wrapping.
-/

namespace RV32Sim

/-- Two to the thirty-second, the modulus of `u32` arithmetic. -/
def M32 : Nat := 4294967296

/-- Two to the thirty-first, the signed/unsigned boundary of 32-bit words. -/
def H32 : Nat := 2147483648

/-- Reinterpret an `i32` (an integer in `[-2^31, 2^31)`) as a `u32`
(the Rust cast `op as u32`), i.e. its two's-complement bit pattern. -/
def u32c (x : Int) : Nat := (x % (M32 : Int)).toNat

/-- Reinterpret a `u32` bit pattern as an `i32` (the Rust cast `v as i32`). -/
def s32 (n : Nat) : Int := if n % M32 < H32 then (n % M32 : Int) else (n % M32 : Int) - (M32 : Int)

/-- The integer is in the value range of `i32`. -/
def isI32 (x : Int) : Prop := -(H32 : Int) ≤ x ∧ x < (H32 : Int)

instance (x : Int) : Decidable (isI32 x) := by unfold isI32; infer_instance

/-- Wrapping 32-bit signed interpretation of an arbitrary integer:
the result of a Rust `wrapping_add`/`wrapping_sub` style operation. -/
def wrap32 (x : Int) : Int := s32 (u32c x)

/-- Set of ALU operations needed for rv32i (`ALUOp` in `alu.rs`). -/
inductive ALUOp where
  | ADD | SUB
  | AND | OR | XOR
  | SLT | SLTU
  | SLL | SRL | SRA
  | BEQ | BNE | BLT | BGE | BLTU | BGEU
deriving DecidableEq, Repr

/-- The ALU (`alu` in `alu.rs`), a function of the decoded instruction's
`controls.alu_op` field and two `i32` operands.  The source reads the
operation out of an `Instruction`; it is passed directly here.  The bare
Rust shifts `op1 << op2` and `(op1 as u32) >> op2` are an arithmetic
overflow when `op2` is negative or at least 32 (a panic under debug
assertions), modelled as `none`; `wrapping_shr` masks the shift amount
and never fails. -/
def alu (op : ALUOp) (op1 op2 : Int) : Option Int :=
  match op with
  | .ADD => some (wrap32 (op1 + op2))
  | .SUB => some (wrap32 (op1 - op2))
  | .AND => some (s32 (Nat.land (u32c op1) (u32c op2)))
  | .OR => some (s32 (Nat.lor (u32c op1) (u32c op2)))
  | .XOR => some (s32 (Nat.xor (u32c op1) (u32c op2)))
  | .BEQ => some (if op1 ≠ op2 then 1 else 0)
  | .BNE => some (if op1 = op2 then 1 else 0)
  | .BLT => some (if ¬ (op1 < op2) then 1 else 0)
  | .BLTU => some (if ¬ (u32c op1 < u32c op2) then 1 else 0)
  | .BGE => some (if ¬ (op1 ≥ op2) then 1 else 0)
  | .BGEU => some (if ¬ (u32c op1 ≥ u32c op2) then 1 else 0)
  | .SLL => if 0 ≤ op2 ∧ op2 < 32 then some (s32 ((u32c op1) <<< op2.toNat)) else none
  | .SRL => if 0 ≤ op2 ∧ op2 < 32 then some (s32 ((u32c op1) >>> op2.toNat)) else none
  | .SRA => some (Int.fdiv op1 (2 ^ (u32c op2 % 32)))
  | .SLT => some (if op1 < op2 then 1 else 0)
  | .SLTU => some (if u32c op1 < u32c op2 then 1 else 0)

/-- rv32i opcode (`Opcode` in `instruction/mod.rs`). -/
inductive Opcode where
  | Lui | AuiPc | Jal | Jalr | Branch | Load | Store | Op | OpImm | System
deriving DecidableEq, Repr

/-- rv32i instruction format (`Format` in `instruction/mod.rs`). -/
inductive Format where
  | R | I | S | B | U | J | Sys
deriving DecidableEq, Repr

/-- rv32i function mnemonic (`Function` in `instruction/mod.rs`). -/
inductive Function where
  | LUI | AUIPC | JAL | JALR
  | BEQ | BNE | BLT | BGE | BLTU | BGEU
  | LB | LH | LW | LBU | LHU
  | SB | SH | SW
  | ADDI | SLTI | SLTIU | XORI | ORI | ANDI | SLLI | SRLI | SRAI
  | ADD | SUB | SLL | SLT | SLTU | XOR | SRL | SRA | OR | AND
  | ECALL
deriving DecidableEq, Repr

/-- Instruction attributes (`Attributes` in `instruction/mod.rs`):
optional raw subfields of the 32-bit word. -/
structure Attributes where
  opcode : Option Nat := none
  rs1 : Option Nat := none
  rs2 : Option Nat := none
  rd : Option Nat := none
  funct3 : Option Nat := none
  funct7 : Option Nat := none
  imm : Option Nat := none
deriving DecidableEq, Repr

/-- Opcode extraction (`get_opcode` in `decode_helper.rs`): low 7 bits. -/
def get_opcode (raw_inst : Nat) : Nat := Nat.land raw_inst 0x7f

/-- funct3 extraction (`get_funct3`): bits 14..12. -/
def get_funct3 (raw_inst : Nat) : Nat := Nat.land (raw_inst >>> 12) 0x7

/-- rs1 extraction (`get_rs1`): bits 19..15. -/
def get_rs1 (raw_inst : Nat) : Nat := Nat.land (raw_inst >>> 15) 0x1f

/-- rs2 extraction (`get_rs2`): bits 24..20. -/
def get_rs2 (raw_inst : Nat) : Nat := Nat.land (raw_inst >>> 20) 0x1f

/-- rd extraction (`get_rd`): bits 11..7. -/
def get_rd (raw_inst : Nat) : Nat := Nat.land (raw_inst >>> 7) 0x1f

/-- funct7 extraction (`get_funct7`): bits 31..25. -/
def get_funct7 (raw_inst : Nat) : Nat := Nat.land (raw_inst >>> 25) 0x7f

/-- Opcode table (`raw_to_opcode` in `decode_helper.rs`).  The source
matches the low 7 bits against ten fixed values and executes a
`panic\x21` macro on the fall-through arm; the panic is modelled as
`none`. -/
def raw_to_opcode (raw_inst : Nat) : Option Opcode :=
  let opcode := Nat.land raw_inst 0x7f
  if opcode = 0x37 then some .Lui
  else if opcode = 0x17 then some .AuiPc
  else if opcode = 0x6f then some .Jal
  else if opcode = 0x67 then some .Jalr
  else if opcode = 0x63 then some .Branch
  else if opcode = 0x03 then some .Load
  else if opcode = 0x23 then some .Store
  else if opcode = 0x33 then some .Op
  else if opcode = 0x13 then some .OpImm
  else if opcode = 0x73 then some .System
  else none

/-- Format table (`opcode_to_format` in `decode_helper.rs`). -/
def opcode_to_format (opcode : Opcode) : Format :=
  match opcode with
  | .Lui => .U
  | .AuiPc => .U
  | .Jal => .J
  | .Jalr => .I
  | .Branch => .B
  | .Load => .I
  | .Store => .S
  | .Op => .R
  | .OpImm => .I
  | .System => .Sys

/-- Mnemonic resolution (`get_function` in `decode_helper.rs`).  The
source takes the whole instruction and reads its opcode, its parsed
`funct3` attribute (through `unwrap`) and bit 30 of the raw word; those
three inputs are passed here directly.  Both the `unwrap` of a missing
`funct3` and the fall-through `panic\x21` arm of the match are modelled
as `none`. -/
def get_function (opcode : Opcode) (funct3 : Option Nat) (raw_inst : Nat) : Option Function :=
  match opcode with
  | .Lui => some .LUI
  | .AuiPc => some .AUIPC
  | .Jal => some .JAL
  | .Jalr => some .JALR
  | .System => some .ECALL
  | _ =>
    match funct3 with
    | none => none
    | some f3 =>
      let bit30 := Nat.land raw_inst 0x40000000 >>> 30
      match opcode, f3, bit30 with
      | .Branch, 0b000, _ => some .BEQ
      | .Branch, 0b001, _ => some .BNE
      | .Branch, 0b100, _ => some .BLT
      | .Branch, 0b101, _ => some .BGE
      | .Branch, 0b110, _ => some .BLTU
      | .Branch, 0b111, _ => some .BGEU
      | .Load, 0b000, _ => some .LB
      | .Load, 0b001, _ => some .LH
      | .Load, 0b010, _ => some .LW
      | .Load, 0b100, _ => some .LBU
      | .Load, 0b101, _ => some .LHU
      | .Store, 0b000, _ => some .SB
      | .Store, 0b001, _ => some .SH
      | .Store, 0b010, _ => some .SW
      | .OpImm, 0b000, _ => some .ADDI
      | .OpImm, 0b010, _ => some .SLTI
      | .OpImm, 0b011, _ => some .SLTIU
      | .OpImm, 0b100, _ => some .XORI
      | .OpImm, 0b110, _ => some .ORI
      | .OpImm, 0b111, _ => some .ANDI
      | .OpImm, 0b001, _ => some .SLLI
      | .OpImm, 0b101, 0b0 => some .SRLI
      | .OpImm, 0b101, 0b1 => some .SRAI
      | .Op, 0b000, 0b0 => some .ADD
      | .Op, 0b000, 0b1 => some .SUB
      | .Op, 0b001, _ => some .SLL
      | .Op, 0b010, _ => some .SLT
      | .Op, 0b011, _ => some .SLTU
      | .Op, 0b100, _ => some .XOR
      | .Op, 0b101, 0b0 => some .SRL
      | .Op, 0b101, 0b1 => some .SRA
      | .Op, 0b110, _ => some .OR
      | .Op, 0b111, _ => some .AND
      | _, _, _ => none

/-- Sign extension of the parsed immediate (`get_imm_sign_extended` in
`decode_helper.rs`): reinterpret as `i32`, shift left then arithmetically
right by a format-specific amount, reinterpret as `u32`.  The source
reads the opcode and the `imm` attribute from the instruction; they are
passed here directly. -/
def get_imm_sign_extended (opcode : Opcode) (imm : Option Nat) : Option Nat :=
  let shamt : Nat :=
    match opcode with
    | .Lui => 0
    | .AuiPc => 0
    | .Jal => 12
    | .Branch => 19
    | _ => 20
  match imm with
  | some v => some (u32c (Int.fdiv (s32 ((v <<< shamt) % M32)) (2 ^ shamt)))
  | none => none

/-- J-format field parse (`parse_format_j` in `decode_helper.rs`). -/
def parse_format_j (raw_inst : Nat) : Attributes :=
  { opcode := some (get_opcode raw_inst)
    rs1 := none
    rs2 := none
    rd := some (get_rd raw_inst)
    funct3 := none
    funct7 := none
    imm := some
      ((Nat.land raw_inst 0x80000000 >>> 11) |||
        Nat.land raw_inst 0xff000 |||
        (Nat.land raw_inst 0x100000 >>> 9) |||
        (Nat.land raw_inst 0x7fe00000 >>> 20)) }

/-- Specific kinds of memory errors (`MemoryErrorKind` in `error.rs`). -/
inductive MemoryErrorKind where
  | ReadUnallocated
  | WriteUnallocated
  | OutOfBounds
  | InvalidSize (size : Nat)
deriving DecidableEq, Repr

/-- Errors related to memory operations (`MemoryError` in `error.rs`).
The `CacheInconsistency` payload string is dropped; only the level is
kept. -/
inductive MemoryError where
  | AccessError (address : Nat) (kind : MemoryErrorKind)
  | AlignmentError (address : Nat) (alignment : Nat)
  | PageNotAllocated (address : Nat)
  | CacheInconsistency (level : Nat)
deriving DecidableEq, Repr

/-- Memory management unit (`MMU` in `memory/mmu.rs`): a lazy two-level
page table over the 32-bit address space.  The source stores
`Vec<Option<Vec<Option<Box<[u8; 4096]>>>>>` with both levels of fixed
size 1024; the fixed-size vectors are modelled as total maps on their
index range and a page as a total map from offsets to bytes. -/
structure MMU where
  data : Nat → Option (Nat → Option (Nat → Nat))

namespace MMU

/-- Fresh MMU (`MMU::make`): every first-level entry is unallocated. -/
def make : MMU := ⟨fun _ => none⟩

/-- First-level index (`get_first_level_index`): high 10 bits. -/
def get_first_level_index (address : Nat) : Nat := (address % M32) >>> 22

/-- Second-level index (`get_second_level_index`): next 10 bits. -/
def get_second_level_index (address : Nat) : Nat := Nat.land (address >>> 12) 1023

/-- Page offset (`get_page_offset`): low 12 bits. -/
def get_page_offset (address : Nat) : Nat := Nat.land address 4095

/-- Page presence check (`page_exists`). -/
def page_exists (m : MMU) (address : Nat) : Bool :=
  match m.data (get_first_level_index address) with
  | some second_level => (second_level (get_second_level_index address)).isSome
  | none => false

/-- Page allocation (`allocate_page`): idempotent, zero-fills a fresh
4096-byte page, returns whether the page was newly allocated. -/
def allocate_page (m : MMU) (address : Nat) : Bool × MMU :=
  let i := get_first_level_index address
  let j := get_second_level_index address
  let second_level :=
    match m.data i with
    | some sl => sl
    | none => fun _ => none
  match second_level j with
  | some _ => (false, ⟨fun i2 => if i2 = i then some second_level else m.data i2⟩)
  | none =>
    let second_level2 := fun j2 => if j2 = j then some (fun _ => 0) else second_level j2
    (true, ⟨fun i2 => if i2 = i then some second_level2 else m.data i2⟩)

/-- Byte store (`MMU::set8`): fails with `WriteUnallocated` when the
page is absent. -/
def set8 (m : MMU) (address byte : Nat) : Except MemoryError MMU :=
  let i := get_first_level_index address
  let j := get_second_level_index address
  let k := get_page_offset address
  match m.data i with
  | some second_level =>
    match second_level j with
    | some page =>
      let page2 := fun k2 => if k2 = k then byte % 256 else page k2
      let second_level2 := fun j2 => if j2 = j then some page2 else second_level j2
      .ok ⟨fun i2 => if i2 = i then some second_level2 else m.data i2⟩
    | none => .error (.AccessError address .WriteUnallocated)
  | none => .error (.AccessError address .WriteUnallocated)

/-- Byte load (`MMU::get8`): fails with `ReadUnallocated` when the page
is absent. -/
def get8 (m : MMU) (address : Nat) : Except MemoryError Nat :=
  let i := get_first_level_index address
  let j := get_second_level_index address
  let k := get_page_offset address
  match m.data i with
  | some second_level =>
    match second_level j with
    | some page => .ok (page k)
    | none => .error (.AccessError address .ReadUnallocated)
  | none => .error (.AccessError address .ReadUnallocated)

/-- Half-word store (`MMU::set16`): checks 2-byte alignment first, then
writes the two bytes little-endian.  The source increments a `u32`
address; the increment is taken modulo `2^32`. -/
def set16 (m : MMU) (address value : Nat) : Except MemoryError MMU :=
  if address % 2 ≠ 0 then .error (.AlignmentError address 2)
  else do
    let m1 ← m.set8 address (value % 256)
    let m2 ← m1.set8 ((address + 1) % M32) ((value >>> 8) % 256)
    .ok m2

/-- Half-word load (`MMU::get16`): checks 2-byte alignment first. -/
def get16 (m : MMU) (address : Nat) : Except MemoryError Nat :=
  if address % 2 ≠ 0 then .error (.AlignmentError address 2)
  else do
    let low ← m.get8 address
    let high ← m.get8 ((address + 1) % M32)
    .ok (low ||| (high <<< 8))

/-- Word store (`MMU::set32`): checks 4-byte alignment first, then
stores two half-words. -/
def set32 (m : MMU) (address value : Nat) : Except MemoryError MMU :=
  if address % 4 ≠ 0 then .error (.AlignmentError address 4)
  else do
    let m1 ← m.set16 address (value % 65536)
    let m2 ← m1.set16 ((address + 2) % M32) ((value >>> 16) % 65536)
    .ok m2

/-- Word load (`MMU::get32`): checks 4-byte alignment first. -/
def get32 (m : MMU) (address : Nat) : Except MemoryError Nat :=
  if address % 4 ≠ 0 then .error (.AlignmentError address 4)
  else do
    let low ← m.get16 address
    let high ← m.get16 ((address + 2) % M32)
    .ok (low ||| (high <<< 16))

end MMU

/-- Access kind (`AccessType` in `memory/mod.rs`). -/
inductive AccessType where
  | Read
  | Write
deriving DecidableEq, Repr

/-- Write-hit policy (`WriteHitPolicy` in `memory/mod.rs`). -/
inductive WriteHitPolicy where
  | WriteBack
  | WriteThrough
deriving DecidableEq, Repr

/-- Write-miss policy (`WriteMissPolicy` in `memory/mod.rs`). -/
inductive WriteMissPolicy where
  | WriteAllocate
  | WriteNoAllocate
deriving DecidableEq, Repr

/-- Halving recursion computing the floor base-2 logarithm; 32 steps
cover every `u32` value. -/
def log2_loop : Nat → Nat → Nat
  | 0, _ => 0
  | steps + 1, n => if 2 ≤ n then log2_loop steps (n / 2) + 1 else 0

/-- Floor base-2 logarithm (`get_log_2` in `memory/cache.rs`, computed
there as `31 - leading_zeros` on a nonzero `u32`, which equals the floor
logarithm). -/
def get_log_2 (value : Nat) : Nat := log2_loop 32 value

/-- Power-of-two test (`is_pow_2` in `memory/cache.rs`). -/
def is_pow_2 (value : Nat) : Bool := value ≠ 0 && Nat.land value (value - 1) = 0

/-- Low-bits mask (`get_mask` in `memory/cache.rs`). -/
def get_mask (bits : Nat) : Nat := (1 <<< bits) - 1

/-- Cache parameterization (`CachePolicy` in `memory/cache.rs`). -/
structure CachePolicy where
  cache_size : Nat
  block_size : Nat
  block_num : Nat
  associativity : Nat
  hit_latency : Int
deriving DecidableEq, Repr

/-- Policy constructor (`CachePolicy::make`): derives
`block_num = cache_size / block_size`. -/
def CachePolicy.make (cache_size block_size associativity : Nat) (hit_latency : Int) :
    CachePolicy :=
  { cache_size := cache_size
    block_size := block_size
    block_num := cache_size / block_size
    associativity := associativity
    hit_latency := hit_latency }

/-- Default cache policy (`CachePolicy::default`): 16 KiB, 64-byte
blocks, direct-mapped, hit latency 1. -/
def CachePolicy.dflt : CachePolicy := CachePolicy.make (16 * 1024) 64 1 1

/-- Policy well-formedness (`CachePolicy::is_valid`). -/
def CachePolicy.is_valid (p : CachePolicy) : Bool :=
  is_pow_2 p.cache_size && is_pow_2 p.block_size &&
    p.cache_size % p.block_size = 0 &&
    p.cache_size = p.block_size * p.block_num &&
    p.block_num % p.associativity = 0

/-- Hit/miss counters (`CacheHistory` in `memory/cache.rs`). -/
structure CacheHistory where
  num_hit : Int := 0
  num_miss : Int := 0
deriving DecidableEq, Repr

/-- Cache block metadata (`Block` in `memory/cache.rs`).  Blocks carry
no data bytes, only bookkeeping. -/
structure Block where
  valid : Bool := false
  dirty : Bool := false
  tag : Nat := 0
  index : Nat := 0
  prv_ref : Int := 0
deriving DecidableEq, Repr

instance : Inhabited Block := ⟨{}⟩

/-- One level of a set-associative cache (`Cache` in `memory/cache.rs`). -/
structure Cache where
  policy : CachePolicy
  history : CacheHistory
  offset_bits : Nat
  index_bits : Nat
  offset_mask : Nat
  index_mask : Nat
  tag_mask : Nat
  blocks : List Block
deriving DecidableEq, Repr

namespace Cache

/-- Cache constructor (`Cache::make`): derives the address-split widths
and initializes `block_num` invalid blocks with
`index = i / associativity`.  The source asserts `policy.is_valid()`
before construction; assertions are not modelled. -/
def make (policy : CachePolicy) : Cache :=
  let offset_bits := get_log_2 policy.block_size
  let index_bits := get_log_2 (policy.block_num / policy.associativity)
  { policy := policy
    history := {}
    offset_bits := offset_bits
    index_bits := index_bits
    offset_mask := get_mask offset_bits
    index_mask := get_mask index_bits
    tag_mask := get_mask (32 - offset_bits - index_bits)
    blocks := (List.range policy.block_num).map fun i =>
      { valid := false, dirty := false, tag := 0, index := i / policy.associativity,
        prv_ref := 0 } }

/-- Placeholder cache used where the source would have an out-of-range
index panic or an unused field. -/
def dummy : Cache :=
  { policy := ⟨0, 0, 0, 0, 0⟩, history := {}, offset_bits := 0, index_bits := 0,
    offset_mask := 0, index_mask := 0, tag_mask := 0, blocks := [] }

/-- Set index of an address (`Cache::get_index`). -/
def get_index (c : Cache) (address : Nat) : Nat :=
  Nat.land (address >>> c.offset_bits) c.index_mask

/-- Tag of an address (`Cache::get_tag`). -/
def get_tag (c : Cache) (address : Nat) : Nat :=
  Nat.land (address >>> (c.offset_bits + c.index_bits)) c.tag_mask

/-- Base address of a block (`Cache::get_address`): tag and index shifted
back into place (`u32` shifts, taken modulo `2^32`). -/
def get_address (c : Cache) (block : Block) : Nat :=
  ((block.tag <<< (c.offset_bits + c.index_bits)) % M32) |||
    ((block.index <<< c.offset_bits) % M32)

/-- Fresh valid block for an address (`Cache::make_block`). -/
def make_block (c : Cache) (address : Nat) : Block :=
  { valid := true, dirty := false, tag := c.get_tag address, index := c.get_index address,
    prv_ref := 0 }

/-- Invalidate the block at slot `i` (`Cache::reset_block`). -/
def reset_block (c : Cache) (i : Nat) : Cache :=
  match c.blocks.get? i with
  | some _ =>
    let b2 : Block :=
      { valid := false, dirty := false, tag := 0, index := i / c.policy.associativity,
        prv_ref := 0 }
    { c with blocks := c.blocks.set i b2 }
  | none => c

/-- Retag a block in place for a new address (`Cache::fix_block`). -/
def fix_block (c : Cache) (i : Nat) (address : Nat) : Cache :=
  match c.blocks.get? i with
  | some b =>
    let b2 : Block := { b with tag := c.get_tag address, index := c.get_index address }
    { c with blocks := c.blocks.set i b2 }
  | none => c

/-- Set lookup (`Cache::lookup`): scan the `associativity` slots of the
address's set, returning the first valid slot with a matching tag. -/
def lookup (c : Cache) (address : Nat) : Option Nat :=
  let tag := c.get_tag address
  let index := c.get_index address
  let first := index * c.policy.associativity
  (List.range c.policy.associativity).findSome? fun d =>
    match c.blocks.get? (first + d) with
    | some block => if block.valid && block.tag = tag then some (first + d) else none
    | none => none

/-- Hit accounting (`Cache::record_hit`). -/
def record_hit (c : Cache) : Cache :=
  { c with history := { c.history with num_hit := c.history.num_hit + 1 } }

/-- Miss accounting (`Cache::record_miss`). -/
def record_miss (c : Cache) : Cache :=
  { c with history := { c.history with num_miss := c.history.num_miss + 1 } }

/-- Scan loop of `get_index_to_replace`: the first invalid slot wins
immediately, otherwise the slot with the smallest `prv_ref` (first
minimum) is retained. -/
def gitr_loop (blocks : List Block) : Nat → Nat → Nat → Int → Nat
  | 0, _, result, _ => result
  | steps + 1, i, result, min_ref =>
    match blocks.get? i with
    | some block =>
      if !block.valid then i
      else if block.prv_ref < min_ref then gitr_loop blocks steps (i + 1) i block.prv_ref
      else gitr_loop blocks steps (i + 1) result min_ref
    | none => gitr_loop blocks steps (i + 1) result min_ref

/-- LRU victim choice within a set (`Cache::get_index_to_replace`). -/
def get_index_to_replace (c : Cache) (index : Nat) : Nat :=
  let first := index * c.policy.associativity
  let min_ref := (c.blocks.get? first).getD default |>.prv_ref
  gitr_loop c.blocks c.policy.associativity first first min_ref

/-- Touch a block on access (`Cache::access_index`): refresh its
reference counter and set dirty on a write. -/
def access_index (c : Cache) (target_index : Nat) (ty : AccessType) (ref_counter : Int) :
    Cache :=
  match c.blocks.get? target_index with
  | some b =>
    let b2 : Block :=
      { b with prv_ref := ref_counter, dirty := if ty = .Write then true else b.dirty }
    { c with blocks := c.blocks.set target_index b2 }
  | none => c

end Cache

/-- Tag selecting which `StorageInterface` implementation's hit and miss
handlers are in force. -/
inductive StorageVariant where
  | inclusive
  | exclusive
deriving DecidableEq, Repr

/-- Cache-side state of a storage hierarchy.  This is the common
skeleton of `InclusiveCache` and `ExclusiveCache` (`memory/inclusive.rs`
and `memory/exclusive.rs`): the Rust structs share the cache list, miss
penalty, penalty accumulators and reference counter, and dynamic
dispatch over `StorageInterface` is modelled by the `variant` tag.  The
write policies and the victim cache exist only on `InclusiveCache`; for
the exclusive variant those fields are never read.  The MMU is kept
outside this structure (see `Storage`) because `access_inner` and the
handlers never touch `self.mmu` — the recursion bottoms out at level `n`
by charging `miss_penalty`. -/
structure StorageState where
  caches : List Cache
  victim_cache : Cache
  use_victim_cache : Bool
  write_hit_policy : WriteHitPolicy
  write_miss_policy : WriteMissPolicy
  miss_penalty : Int
  total_penalty : Int
  total_worst_penalty : Int
  ref_counter : Int
  variant : StorageVariant
deriving DecidableEq, Repr

namespace StorageState

/-- Number of cache levels (the `n` field of both structs, always equal
to the length of the cache list). -/
def n (σ : StorageState) : Nat := σ.caches.length

/-- The cache at level `k` (`caches(k)`, whose `unwrap` never fires for
`k < n`); out of range yields the placeholder. -/
def cacheD (σ : StorageState) (k : Nat) : Cache := (σ.caches.get? k).getD Cache.dummy

/-- Replace the cache at level `k` by a rewritten copy. -/
def modifyCache (σ : StorageState) (k : Nat) (f : Cache → Cache) : StorageState :=
  match σ.caches.get? k with
  | some c => { σ with caches := σ.caches.set k (f c) }
  | none => σ

/-- Level lookup (`StorageInterface::lookup`): `none` beyond the last
level. -/
def lookup (σ : StorageState) (k : Nat) (address : Nat) : Option Nat :=
  if σ.n ≤ k then none
  else (σ.cacheD k).lookup address

/-- Per-level stall charge (`StorageInterface::penalty`): the hit
latency of level `k`, or the miss penalty at the memory level. -/
def penalty (σ : StorageState) (k : Nat) : Int :=
  if k < σ.n then (σ.cacheD k).policy.hit_latency else σ.miss_penalty

/-- Insert an L1 block into the victim cache
(`InclusiveCache::write_block_to_victim_cache`): direct-mapped
replacement at the slot given by the block's address, then retag. -/
def write_block_to_victim_cache (σ : StorageState) (block : Block) : StorageState :=
  let address := (σ.cacheD 0).get_address block
  let index_to_replace := σ.victim_cache.get_index address
  let vc1 := { σ.victim_cache with
    blocks := σ.victim_cache.blocks.set index_to_replace block }
  { σ with victim_cache := vc1.fix_block index_to_replace address }

end StorageState

/-- Call descriptor for the mutually recursive access protocol of
`StorageInterface` and its two implementations: `access_inner`, the hit
and miss handlers, `fetch_from_next_level`, `write_to_next_level`, and
the byte loop of the latter.  Mutual recursion is modelled as one
structurally fuel-recursive interpreter over these descriptors so that
the definitions compute by kernel reduction; every Rust-level call
consumes one unit of fuel, and the entry points supply enough fuel that
the fuel-exhausted branch is never reached (the Rust recursion is
finite: every call moves to level `k + 1` or a smaller loop counter). -/
inductive HCall where
  | inner (k address : Nat) (ty : AccessType) (sc : Option Int)
  | hit (k address : Nat) (ty : AccessType) (sc : Option Int)
  | miss (k address : Nat) (ty : AccessType) (sc : Option Int)
  | fetch (k address : Nat) (sc : Option Int)
  | wtnl (k : Nat) (block : Block)
  | wloop (k address i count : Nat)
deriving Repr

/-- Interpreter for `HCall` descriptors; see the per-call wrappers
`accessInner`, `handleHit`, `handleMiss`, `fetchFromNextLevel`,
`writeToNextLevel` and `writeLoop` below for the source correspondence.
Results are uniformly a state, an optional block index (meaningful for
`inner`, `miss` and `fetch`) and the written-back stall sink. -/
def engine : Nat → StorageState → HCall → StorageState × Option Nat × Option Int
  | 0, σ, c =>
    (σ, none, match c with
      | .inner _ _ _ sc => sc
      | .hit _ _ _ sc => sc
      | .miss _ _ _ sc => sc
      | .fetch _ _ sc => sc
      | _ => none)
  | fuel + 1, σ, .inner k address ty sc =>
    if k = σ.n then
      (σ, none, sc.map fun _ => σ.miss_penalty)
    else
      match σ.lookup k address with
      | some hit_index =>
        let σ1 := if sc.isSome then σ.modifyCache k Cache.record_hit else σ
        let sc1 := sc.map fun _ => σ.penalty k
        let (σ2, _, sc2) := engine fuel σ1 (.hit k address ty sc1)
        let σ3 := σ2.modifyCache k fun c => c.access_index hit_index ty σ2.ref_counter
        (σ3, some hit_index, sc2)
      | none =>
        let σ1 := if sc.isSome then σ.modifyCache k Cache.record_miss else σ
        let sc1 := sc.map fun _ => σ.penalty k
        let (σ2, target, sc2) := engine fuel σ1 (.miss k address ty sc1)
        match target with
        | some target_index =>
          (σ2.modifyCache k fun c => c.access_index target_index ty σ2.ref_counter,
            some target_index, sc2)
        | none => (σ2, none, sc2)
  | fuel + 1, σ, .hit k address ty sc =>
    match σ.variant with
    | .exclusive => (σ, none, sc)
    | .inclusive =>
      if ty = .Write ∧ σ.write_hit_policy = .WriteThrough then
        let (σ2, _, _) := engine fuel σ (.inner (k + 1) address .Write none)
        (σ2, none, sc)
      else (σ, none, sc)
  | fuel + 1, σ, .miss k address ty sc =>
    match σ.variant with
    | .exclusive =>
      let block := (σ.cacheD k).make_block address
      let index_to_replace := (σ.cacheD k).get_index_to_replace block.index
      let replaced_block := ((σ.cacheD k).blocks.get? index_to_replace).getD default
      let σ1 := σ.modifyCache k fun c =>
        { c with blocks := c.blocks.set index_to_replace block }
      let (σ2, next_index, sc2) := engine fuel σ1 (.inner (k + 1) address ty sc)
      match next_index with
      | some ni =>
        let σ3 := σ2.modifyCache (k + 1) fun c => c.reset_block ni
        let σ4 := if replaced_block.valid then
            (engine fuel σ3 (.wtnl k replaced_block)).1
          else σ3
        (σ4, some index_to_replace, sc2)
      | none => (σ2, some index_to_replace, sc2)
    | .inclusive =>
      if ty = .Read ∨ σ.write_miss_policy = .WriteAllocate then
        let (σ2, idx, sc2) := engine fuel σ (.fetch k address sc)
        (σ2, idx, sc2)
      else
        let (σ2, _, sc2) := engine fuel σ (.inner (k + 1) address .Write sc)
        (σ2, none, sc2)
  | fuel + 1, σ, .fetch k address sc =>
    let probe : Option (StorageState × Nat × Option Int) :=
      if σ.use_victim_cache ∧ k = 0 then
        match σ.victim_cache.lookup address with
        | some hit_index =>
          let σa := if sc.isSome then
              { σ with victim_cache := σ.victim_cache.record_hit }
            else σ
          let sca := sc.map fun _ => σ.victim_cache.policy.hit_latency
          let victim_address := σa.victim_cache.get_address
            ((σa.victim_cache.blocks.get? hit_index).getD default)
          let index := (σa.cacheD 0).get_index victim_address
          let index_to_replace := (σa.cacheD k).get_index_to_replace index
          let replaced_address := (σa.cacheD k).get_address
            (((σa.cacheD k).blocks.get? index_to_replace).getD default)
          let l1_block := ((σa.cacheD 0).blocks.get? index).getD default
          let vc_block := (σa.victim_cache.blocks.get? hit_index).getD default
          let σb := σa.modifyCache 0 fun c =>
            { c with blocks := c.blocks.set index vc_block }
          let σc := { σb with victim_cache := { σb.victim_cache with
            blocks := σb.victim_cache.blocks.set hit_index l1_block } }
          let σd := σc.modifyCache 0 fun c => c.fix_block index victim_address
          let σe := { σd with
            victim_cache := σd.victim_cache.fix_block hit_index replaced_address }
          some (σe, index_to_replace, sca)
        | none => none
      else none
    match probe with
    | some (σe, idx, sce) => (σe, some idx, sce)
    | none =>
      let σ0 := if σ.use_victim_cache ∧ k = 0 ∧ (σ.victim_cache.lookup address).isNone
        then { σ with victim_cache := σ.victim_cache.record_miss } else σ
      let block := (σ0.cacheD k).make_block address
      let (σ2, _, sc2) := engine fuel σ0 (.inner (k + 1) address .Write sc)
      let index_to_replace := (σ2.cacheD k).get_index_to_replace block.index
      let replaced_block := ((σ2.cacheD k).blocks.get? index_to_replace).getD default
      let σ3 := σ2.modifyCache k fun c =>
        { c with blocks := c.blocks.set index_to_replace block }
      let σ4 := if σ3.use_victim_cache ∧ k = 0 ∧ replaced_block.valid then
          σ3.write_block_to_victim_cache replaced_block
        else σ3
      let σ5 := if σ4.write_hit_policy = .WriteBack ∧ replaced_block.dirty then
          (engine fuel σ4 (.wtnl k replaced_block)).1
        else σ4
      (σ5, some index_to_replace, sc2)
  | fuel + 1, σ, .wtnl k block =>
    if σ.n ≤ k then (σ, none, none)
    else
      let block_size := (σ.cacheD k).policy.block_size
      let address := (σ.cacheD k).get_address block
      engine fuel σ (.wloop k address 0 block_size)
  | _fuel + 1, σ, .wloop _ _ _ 0 => (σ, none, none)
  | fuel + 1, σ, .wloop k address i (count + 1) =>
    let (σ2, _, _) := engine fuel σ (.inner (k + 1) ((address + i) % M32) .Write none)
    engine fuel σ2 (.wloop k address (i + 1) count)
termination_by structural fuel _ _ => fuel

/-- Recursive access protocol (`StorageInterface::access_inner`).  At
level `n` the access is an MMU access and charges the miss penalty into
the stall sink; otherwise the level-`k` cache is probed, the stall sink
(when supplied) is set to the level's latency and the hit or miss is
recorded, the variant's hit or miss handler runs, and the target block,
if any, is touched with the current reference counter. -/
def accessInner (fuel : Nat) (σ : StorageState) (k address : Nat) (ty : AccessType)
    (sc : Option Int) : StorageState × Option Nat × Option Int :=
  engine fuel σ (.inner k address ty sc)

/-- Hit handler dispatch: the trait default `handle_hit` (used by
`ExclusiveCache`) does nothing; `InclusiveCache::handle_hit` propagates
a write to level `k + 1` with a null stall sink under write-through. -/
def handleHit (fuel : Nat) (σ : StorageState) (k address : Nat) (ty : AccessType)
    (sc : Option Int) : StorageState × Option Int :=
  let (σ2, _, sc2) := engine fuel σ (.hit k address ty sc)
  (σ2, sc2)

/-- Miss handler dispatch (`handle_miss`).  The exclusive handler
installs a fresh block for the address at level `k` over the LRU
victim, accesses level `k + 1`, and — when that access lands in a cache
— zeroes the block there and flushes the evicted level-`k` block (if
valid) down a level.  The inclusive handler fetches from the next level
on a read or under write-allocate, and otherwise forwards the write to
level `k + 1` reporting no local slot. -/
def handleMiss (fuel : Nat) (σ : StorageState) (k address : Nat) (ty : AccessType)
    (sc : Option Int) : StorageState × Option Nat × Option Int :=
  engine fuel σ (.miss k address ty sc)

/-- Inclusive fetch (`InclusiveCache::fetch_from_next_level`).  With a
victim cache at level 0, a victim hit swaps the hit block with the
LRU-chosen L1 slot and retags both; a victim miss is recorded
(unconditionally) and falls through to fetching from level `k + 1`. -/
def fetchFromNextLevel (fuel : Nat) (σ : StorageState) (k address : Nat)
    (sc : Option Int) : StorageState × Option Nat × Option Int :=
  engine fuel σ (.fetch k address sc)

/-- Block write-down (`StorageInterface::write_to_next_level`): the
block-size byte addresses of the level-`k` block are each written to
level `k + 1` with a null stall sink. -/
def writeToNextLevel (fuel : Nat) (σ : StorageState) (k : Nat) (block : Block) :
    StorageState :=
  (engine fuel σ (.wtnl k block)).1

/-- Byte loop of `write_to_next_level`: `for i in 0..block_size`, write
byte `address + i` (a wrapping `u32` sum) to level `k + 1`. -/
def writeLoop (fuel : Nat) (σ : StorageState) (k address i count : Nat) : StorageState :=
  (engine fuel σ (.wloop k address i count)).1

/-- The lowest cache level a call may modify: `access_inner`, the miss
handler and the fetch all work at their own level `k`, while the hit
handler, the block write-down and its byte loop only touch levels
strictly deeper than `k`. -/
def HCall.thr : HCall → Nat
  | .inner k _ _ _ => k
  | .hit k _ _ _ => k + 1
  | .miss k _ _ _ => k
  | .fetch k _ _ => k
  | .wtnl k _ => k + 1
  | .wloop k _ _ _ => k + 1

/-- Fuel ample for any hierarchy access: one Rust-level call per fuel
unit, and the deepest chain through level `k` costs at most
`block_size + 8` calls before moving to level `k + 1`. -/
def StorageState.fuelBound (σ : StorageState) : Nat :=
  σ.caches.foldr (fun c acc => acc + c.policy.block_size + 8) 8

/-- Outermost cache access (`StorageInterface::access`): bump the global
reference counter, then run the recursive protocol from level 0 with
ample fuel. -/
def StorageState.access (σ : StorageState) (address : Nat) (ty : AccessType)
    (sc : Option Int) : StorageState × Option Int :=
  let σ1 := { σ with ref_counter := σ.ref_counter + 1 }
  let (σ2, _, sc2) := accessInner σ1.fuelBound σ1 0 address ty sc
  (σ2, sc2)

/-- Post-run exclusion audit (`ExclusiveCache::verify_exclusiveness`):
for every valid block of every level `k`, the block's base address must
miss in every deeper level.  The source runs the nested loops with an
`assert_eq` against `None`; the audit returns whether every such
assertion holds. -/
def StorageState.exclusionAudit (σ : StorageState) : Bool :=
  (List.range σ.n).all fun k =>
    (List.range (σ.cacheD k).policy.block_num).all fun i =>
      match (σ.cacheD k).blocks.get? i with
      | none => true
      | some block =>
        !block.valid ||
          (List.range (σ.n - (k + 1))).all fun d =>
            (σ.lookup (k + 1 + d) ((σ.cacheD k).get_address block)).isNone

/-- A full storage hierarchy: the cache-side state plus the MMU it
fronts.  In the Rust structs the MMU is one more field of the same
struct; it is split out here because the access protocol never reads it
(see `StorageState`), which the theorems below exploit. -/
structure Storage where
  st : StorageState
  mmu : MMU

namespace Storage

/-- Worst-case accounting (`StorageInterface::penalize_worst`): every
sized access charges a full miss penalty to the worst-case accumulator. -/
def penalize_worst (s : Storage) : Storage :=
  { s with st := { s.st with
      total_worst_penalty := s.st.total_worst_penalty + s.st.miss_penalty } }

/-- Byte read through the hierarchy (`StorageInterface::get8`):
worst-case charge, cache access for stall accounting, then the value
comes straight from the MMU. -/
def get8 (s : Storage) (address : Nat) (sc : Option Int) :
    Except MemoryError Nat × Storage × Option Int :=
  let s1 := s.penalize_worst
  let (st2, sc2) := s1.st.access address .Read sc
  (s1.mmu.get8 address, ⟨st2, s1.mmu⟩, sc2)

/-- Byte write through the hierarchy (`StorageInterface::set8`):
worst-case charge, cache access, then the byte is stored straight into
the MMU. -/
def set8 (s : Storage) (address value : Nat) (sc : Option Int) :
    Except MemoryError Unit × Storage × Option Int :=
  let s1 := s.penalize_worst
  let (st2, sc2) := s1.st.access address .Write sc
  match s1.mmu.set8 address value with
  | .ok m2 => (.ok (), ⟨st2, m2⟩, sc2)
  | .error e => (.error e, ⟨st2, s1.mmu⟩, sc2)

/-- Half-word read through the hierarchy (`StorageInterface::get16`):
two byte reads, little-endian, with only the first one charged to the
caller's stall sink.  No alignment check is performed; the `u32` address
increment wraps. -/
def get16 (s : Storage) (address : Nat) (sc : Option Int) :
    Except MemoryError Nat × Storage × Option Int :=
  match s.get8 address sc with
  | (.error e, s1, sc1) => (.error e, s1, sc1)
  | (.ok low, s1, sc1) =>
    match s1.get8 ((address + 1) % M32) none with
    | (.error e, s2, _) => (.error e, s2, sc1)
    | (.ok high, s2, _) => (.ok (low ||| (high <<< 8)), s2, sc1)

/-- Word read through the hierarchy (`StorageInterface::get32`): two
half-word reads, little-endian, no alignment check. -/
def get32 (s : Storage) (address : Nat) (sc : Option Int) :
    Except MemoryError Nat × Storage × Option Int :=
  match s.get16 address sc with
  | (.error e, s1, sc1) => (.error e, s1, sc1)
  | (.ok low, s1, sc1) =>
    match s1.get16 ((address + 2) % M32) none with
    | (.error e, s2, _) => (.error e, s2, sc1)
    | (.ok high, s2, _) => (.ok (low ||| (high <<< 16)), s2, sc1)

/-- Half-word write through the hierarchy (`StorageInterface::set16`):
two byte writes, little-endian, only the first charged; no alignment
check. -/
def set16 (s : Storage) (address value : Nat) (sc : Option Int) :
    Except MemoryError Unit × Storage × Option Int :=
  match s.set8 address (value % 256) sc with
  | (.error e, s1, sc1) => (.error e, s1, sc1)
  | (.ok _, s1, sc1) =>
    match s1.set8 ((address + 1) % M32) ((value >>> 8) % 256) none with
    | (.error e, s2, _) => (.error e, s2, sc1)
    | (.ok _, s2, _) => (.ok (), s2, sc1)

/-- Word write through the hierarchy (`StorageInterface::set32`): two
half-word writes, no alignment check. -/
def set32 (s : Storage) (address value : Nat) (sc : Option Int) :
    Except MemoryError Unit × Storage × Option Int :=
  match s.set16 address (value % 65536) sc with
  | (.error e, s1, sc1) => (.error e, s1, sc1)
  | (.ok _, s1, sc1) =>
    match s1.set16 ((address + 2) % M32) ((value >>> 16) % 65536) none with
    | (.error e, s2, _) => (.error e, s2, sc1)
    | (.ok _, s2, _) => (.ok (), s2, sc1)

/-- Sized read (`StorageInterface::get`): sets the worst-case sink to
the miss penalty, then dispatches on the step; a step other than 1, 2, 4
fails with `InvalidSize`. -/
def get (s : Storage) (address step : Nat) (sc sc_worst : Option Int) :
    Except MemoryError Nat × Storage × Option Int × Option Int :=
  let scw := sc_worst.map fun _ => s.st.miss_penalty
  match step with
  | 1 => let (r, s2, sc2) := s.get8 address sc; (r, s2, sc2, scw)
  | 2 => let (r, s2, sc2) := s.get16 address sc; (r, s2, sc2, scw)
  | 4 => let (r, s2, sc2) := s.get32 address sc; (r, s2, sc2, scw)
  | _ => (.error (.AccessError address (.InvalidSize step)), s, sc, scw)

/-- Sized write (`StorageInterface::set`): adds the miss penalty into
the worst-case sink, then dispatches on the step. -/
def set (s : Storage) (address step value : Nat) (sc sc_worst : Option Int) :
    Except MemoryError Unit × Storage × Option Int × Option Int :=
  let scw := sc_worst.map fun w => w + s.st.miss_penalty
  match step with
  | 1 => let (r, s2, sc2) := s.set8 address (value % 256) sc; (r, s2, sc2, scw)
  | 2 => let (r, s2, sc2) := s.set16 address (value % 65536) sc; (r, s2, sc2, scw)
  | 4 => let (r, s2, sc2) := s.set32 address value sc; (r, s2, sc2, scw)
  | _ => (.error (.AccessError address (.InvalidSize step)), s, sc, scw)

end Storage

/-- Constructor of the exclusive hierarchy (`ExclusiveCache::make`): one
cache per policy over a fresh MMU.  The victim-cache and write-policy
fields do not exist on the Rust struct and are never read by the
exclusive handlers; they are filled with inert defaults. -/
def ExclusiveCache.make (policies : List CachePolicy) (miss_penalty : Int) : Storage :=
  { st :=
    { caches := policies.map Cache.make
      victim_cache := Cache.dummy
      use_victim_cache := false
      write_hit_policy := .WriteBack
      write_miss_policy := .WriteAllocate
      miss_penalty := miss_penalty
      total_penalty := 0
      total_worst_penalty := 0
      ref_counter := 0
      variant := .exclusive }
    mmu := MMU.make }

/-- Constructor of the inclusive hierarchy (`InclusiveCache::make`): one
cache per policy over a fresh MMU, plus a victim cache sized at eight
blocks of the first level's block size (associativity 1, zero latency)
when any level exists, and a default-policy placeholder otherwise. -/
def InclusiveCache.make (policies : List CachePolicy) (whp : WriteHitPolicy)
    (wmp : WriteMissPolicy) (miss_penalty : Int) (use_victim_cache : Bool) : Storage :=
  let victim_cache :=
    match policies with
    | p0 :: _ => Cache.make (CachePolicy.make (8 * p0.block_size) p0.block_size 1 0)
    | [] => Cache.make CachePolicy.dflt
  { st :=
    { caches := policies.map Cache.make
      victim_cache := victim_cache
      use_victim_cache := use_victim_cache
      write_hit_policy := whp
      write_miss_policy := wmp
      miss_penalty := miss_penalty
      total_penalty := 0
      total_worst_penalty := 0
      ref_counter := 0
      variant := .inclusive }
    mmu := MMU.make }

/-- Does a result carry an `AlignmentError`? -/
def isAlignmentError {α : Type} (r : Except MemoryError α) : Bool :=
  match r with
  | .error (.AlignmentError _ _) => true
  | _ => false

/-- One sized access through a storage interface: address, step and (for
writes) value, together with the two optional stall sinks the driver
passes in. -/
inductive MemOp where
  | read (address step : Nat) (sc sc_worst : Option Int)
  | write (address step value : Nat) (sc sc_worst : Option Int)
deriving Repr

/-- Run one sized access through the hierarchy
(`StorageInterface::get`/`set`), reporting the read value (or `0` for a
successful write) next to the updated storage. -/
def Storage.runOp (s : Storage) (op : MemOp) : Storage × Except MemoryError Nat :=
  match op with
  | .read a step sc scw =>
    let (r, s2, _, _) := s.get a step sc scw
    (s2, r)
  | .write a step v sc scw =>
    let (r, s2, _, _) := s.set a step v sc scw
    (s2, r.map fun _ => 0)

/-- Run a sequence of sized accesses through the hierarchy, collecting
every access's result. -/
def Storage.run (s : Storage) : List MemOp → Storage × List (Except MemoryError Nat)
  | [] => (s, [])
  | op :: ops =>
    let (s2, r) := s.runOp op
    let (s3, rs) := s2.run ops
    (s3, r :: rs)

/-- Specification-side reference for refinement: a sized read performed
directly on the MMU with no cache in between, assembled from byte
accesses exactly as the spec describes sized hierarchy accesses (§4.3:
sized access larger than one byte is performed as multiple byte
accesses, little-endian, with wrapping `u32` address arithmetic). -/
def MMU.getDirect (m : MMU) (address step : Nat) : Except MemoryError Nat :=
  match step with
  | 1 => m.get8 address
  | 2 => do
    let low ← m.get8 address
    let high ← m.get8 ((address + 1) % M32)
    .ok (low ||| (high <<< 8))
  | 4 => do
    let low0 ← m.get8 address
    let low1 ← m.get8 ((address + 1) % M32)
    let high0 ← m.get8 ((address + 2) % M32)
    let high1 ← m.get8 (((address + 2) % M32 + 1) % M32)
    .ok ((low0 ||| (low1 <<< 8)) ||| ((high0 ||| (high1 <<< 8)) <<< 16))
  | _ => .error (.AccessError address (.InvalidSize step))

/-- The two-byte little-endian store chain on a bare MMU, returning the
partially updated memory on failure; the common shape of the
specification-side sized writes. -/
def mmuSet16Chain (m : MMU) (a v : Nat) : MMU × Except MemoryError Unit :=
  match m.set8 a (v % 256) with
  | .ok m1 =>
    match m1.set8 ((a + 1) % M32) ((v >>> 8) % 256) with
    | .ok m2 => (m2, .ok ())
    | .error e => (m1, .error e)
  | .error e => (m, .error e)

/-- Direct-on-MMU execution of one sized access (the refinement
reference for `Storage.runOp`): a failed write leaves the memory as the
partial byte writes left it, exactly as the hierarchy does. -/
def MMU.runOpDirect (m : MMU) (op : MemOp) : MMU × Except MemoryError Nat :=
  match op with
  | .read a step _ _ => (m, m.getDirect a step)
  | .write a step v _ _ =>
    match step with
    | 1 =>
      match m.set8 a (v % 256) with
      | .ok m2 => (m2, .ok 0)
      | .error e => (m, .error e)
    | 2 =>
      match m.set8 a ((v % 65536) % 256) with
      | .ok m1 =>
        match m1.set8 ((a + 1) % M32) (((v % 65536) >>> 8) % 256) with
        | .ok m2 => (m2, .ok 0)
        | .error e => (m1, .error e)
      | .error e => (m, .error e)
    | 4 =>
      match m.set8 a ((v % 65536) % 256) with
      | .ok m1 =>
        match m1.set8 ((a + 1) % M32) (((v % 65536) >>> 8) % 256) with
        | .ok m2 =>
          match m2.set8 ((a + 2) % M32) (((v >>> 16) % 65536) % 256) with
          | .ok m3 =>
            match m3.set8 (((a + 2) % M32 + 1) % M32) ((((v >>> 16) % 65536) >>> 8) % 256) with
            | .ok m4 => (m4, .ok 0)
            | .error e => (m3, .error e)
          | .error e => (m2, .error e)
        | .error e => (m1, .error e)
      | .error e => (m, .error e)
    | _ => (m, .error (.AccessError a (.InvalidSize step)))

/-- Direct-on-MMU execution of a sequence of sized accesses. -/
def MMU.runDirect (m : MMU) : List MemOp → MMU × List (Except MemoryError Nat)
  | [] => (m, [])
  | op :: ops =>
    let (m2, r) := m.runOpDirect op
    let (m3, rs) := m2.runDirect ops
    (m3, r :: rs)

/-- The two-level exclusive hierarchy on which the exclusion audit
fails: level 0 has 2-byte blocks, level 1 has one 4-byte block, so one
level-1 line spans two level-0 lines.  These policies pass
`CachePolicy::is_valid`. -/
def exclusionCexConfig : Storage :=
  ExclusiveCache.make [CachePolicy.make 2 2 1 1, CachePolicy.make 4 4 1 1] 100

/-- The failing run for the exclusion audit: allocate the page at 0,
then write the bytes at 0 and at 2 (two sized single-byte accesses to an
allocated page). -/
def exclusionCexRun : Storage :=
  let s0 : Storage := { exclusionCexConfig with mmu := (MMU.make.allocate_page 0).2 }
  let (_, s1, _, _) := s0.set 0 1 17 (some 0) (some 0)
  let (_, s2, _, _) := s1.set 2 1 23 (some 0) (some 0)
  s2

/-- A fresh one-level exclusive hierarchy used to exhibit the
counter-recording behaviour of `access_inner` under a null stall sink. -/
def counterCexState : StorageState :=
  (ExclusiveCache.make [CachePolicy.make 4 4 1 1] 100).st

/-! ## Theorems -/

/-- A byte store either succeeds or reports `WriteUnallocated`. -/
theorem MMU.set8_cases (m : MMU) (a v : Nat) :
    (∃ m2, m.set8 a v = .ok m2) ∨
      m.set8 a v = .error (.AccessError a .WriteUnallocated) := by
  unfold MMU.set8
  rcases h1 : m.data (MMU.get_first_level_index a) with _ | sl
  · simp [h1]
  · rcases h2 : sl (MMU.get_second_level_index a) with _ | page
    · simp [h1, h2]
    · simp [h1, h2]

/-- A byte load either succeeds or reports `ReadUnallocated`. -/
theorem MMU.get8_cases (m : MMU) (a : Nat) :
    (∃ v, m.get8 a = .ok v) ∨
      m.get8 a = .error (.AccessError a .ReadUnallocated) := by
  unfold MMU.get8
  rcases h1 : m.data (MMU.get_first_level_index a) with _ | sl
  · simp [h1]
  · rcases h2 : sl (MMU.get_second_level_index a) with _ | page
    · simp [h1, h2]
    · simp [h1, h2]

/-- A byte store never reports an alignment error. -/
theorem MMU.set8_not_alignment (m : MMU) (a v : Nat) :
    isAlignmentError (m.set8 a v) = false := by
  rcases m.set8_cases a v with ⟨m2, h⟩ | h <;> simp [h, isAlignmentError]

/-- A byte load never reports an alignment error. -/
theorem MMU.get8_not_alignment (m : MMU) (a : Nat) :
    isAlignmentError (m.get8 a) = false := by
  rcases m.get8_cases a with ⟨v, h⟩ | h <;> simp [h, isAlignmentError]

/-- C1: the ALU's branch comparators return the complement of the
branch condition as 0/1 — BEQ yields 1 exactly when the operands differ,
BNE when they agree, BLT when `op1 ≥ op2` (signed), BGE when
`op1 < op2` (signed), BLTU when `op1 ≥ op2` as unsigned, BGEU when
`op1 < op2` as unsigned — so an ALU output of 0 means the branch is
taken. -/
theorem alu_branch_comparators_complement (op1 op2 : Int)
    (_h1 : isI32 op1) (_h2 : isI32 op2) :
    alu .BEQ op1 op2 = some (if op1 ≠ op2 then 1 else 0) ∧
    alu .BNE op1 op2 = some (if op1 = op2 then 1 else 0) ∧
    alu .BLT op1 op2 = some (if op2 ≤ op1 then 1 else 0) ∧
    alu .BGE op1 op2 = some (if op1 < op2 then 1 else 0) ∧
    alu .BLTU op1 op2 = some (if u32c op2 ≤ u32c op1 then 1 else 0) ∧
    alu .BGEU op1 op2 = some (if u32c op1 < u32c op2 then 1 else 0) ∧
    (alu .BEQ op1 op2 = some 0 ↔ op1 = op2) ∧
    (alu .BNE op1 op2 = some 0 ↔ op1 ≠ op2) ∧
    (alu .BLT op1 op2 = some 0 ↔ op1 < op2) ∧
    (alu .BGE op1 op2 = some 0 ↔ op2 ≤ op1) ∧
    (alu .BLTU op1 op2 = some 0 ↔ u32c op1 < u32c op2) ∧
    (alu .BGEU op1 op2 = some 0 ↔ u32c op2 ≤ u32c op1) := by
  refine ⟨?_, ?_, ?_, ?_, ?_, ?_, ?_, ?_, ?_, ?_, ?_, ?_⟩
  · by_cases h : op1 = op2 <;> simp [alu, h]
  · by_cases h : op1 = op2 <;> simp [alu, h]
  · simp [alu, not_lt]
  · simp [alu, not_le]
  · simp [alu, not_lt]
  · simp [alu, not_le]
  · by_cases h : op1 = op2 <;> simp [alu, h]
  · by_cases h : op1 = op2 <;> simp [alu, h]
  · by_cases h : op1 < op2 <;> simp [alu, h]
  · by_cases h : op2 ≤ op1 <;> simp [alu, not_le, h, not_lt]
  · by_cases h : u32c op1 < u32c op2 <;> simp [alu, h]
  · by_cases h : u32c op2 ≤ u32c op1 <;> simp [alu, not_le, h, not_lt]

/-- Witness for C1 at `op1 = -5`, `op2 = 3`. -/
theorem alu_branch_comparators_complement_witness :
    isI32 (-5) ∧ isI32 3 ∧ (alu .BLT (-5) 3 = some 0 ↔ (-5 : Int) < 3) :=
  ⟨by decide, by decide,
    (alu_branch_comparators_complement (-5) 3 (by decide) (by decide)).2.2.2.2.2.2.2.2.1⟩

/-- C5 (failing evaluation): the bare Rust shifts behind SLL and SRL
overflow — and panic under debug assertions — for shift amounts that are
negative or at least 32, instead of reducing them modulo 32; only SRA's
`wrapping_shr` masks its shift amount (`33 % 32 = 1`, with the sign bit
preserved).  Under the claimed modulo-32 semantics `SLL 1 32` would
yield `1`. -/
theorem alu_shift_overflow :
    alu .SLL 1 32 = none ∧ alu .SLL 1 (-1) = none ∧ alu .SRL 1 32 = none ∧
    alu .SLL 1 0 = some 1 ∧
    alu .SRA (-8) 33 = some (-4) ∧ alu .SRA (-1) 31 = some (-1) := by decide

/-- C3 (failing evaluation): the decoder executes a panic — modelled
`none` — on an unknown opcode (`0x00000000` has low bits `0b0000000`)
and on an invalid funct3 combination (`0x00003003` is LOAD with funct3
`0b011`), instead of returning an `InvalidInstruction` error as
`Instruction::new` (which applies `?` to both calls) and the error
taxonomy expect. -/
theorem decode_invalid_panics :
    raw_to_opcode 0x00000000 = none ∧
    raw_to_opcode 0x0000002F = none ∧
    get_function .Load (some 0b011) 0x00003003 = none ∧
    get_function .Op (some 0b000) 0x00000033 = some .ADD := by decide

/-- C8: decoding the J-type word `0xF79FF06F` (a JAL) extracts the
shuffled immediate `0x1FFF78`, and the decoder's sign-extension step for
the JAL opcode turns it into `0xFFFFFF78`, whose `i32` reinterpretation
is `-136`. -/
theorem parse_format_j_neg136 :
    raw_to_opcode 0xF79FF06F = some .Jal ∧
    (parse_format_j 0xF79FF06F).imm = some 0x1FFF78 ∧
    get_imm_sign_extended .Jal (parse_format_j 0xF79FF06F).imm = some 0xFFFFFF78 ∧
    s32 0xFFFFFF78 = -136 := by decide

/-- C7 (counterexample): the victim cache built by `InclusiveCache::make`
has associativity 1 — it is direct-mapped, not 8-way fully associative. -/
theorem victim_cache_associativity_one :
    (InclusiveCache.make [CachePolicy.dflt] .WriteBack .WriteAllocate 100
        true).st.victim_cache.policy.associativity = 1 ∧
    ¬ (InclusiveCache.make [CachePolicy.dflt] .WriteBack .WriteAllocate 100
        true).st.victim_cache.policy.associativity = 8 := by
  constructor <;> decide

/-- C7 (amended): for every nonempty policy list, the victim cache owned
by an `InclusiveCache` is an 8-block direct-mapped cache: capacity 8
blocks of C[0]'s block size, associativity 1 and zero hit latency, so
each address maps to exactly one of the 8 slots. -/
theorem victim_cache_shape (policies : List CachePolicy) (p0 : CachePolicy)
    (whp : WriteHitPolicy) (wmp : WriteMissPolicy) (mp : Int) (uvc : Bool)
    (h : policies.head? = some p0) (hbs : 0 < p0.block_size) :
    (InclusiveCache.make policies whp wmp mp uvc).st.victim_cache.policy.cache_size
        = 8 * p0.block_size ∧
    (InclusiveCache.make policies whp wmp mp uvc).st.victim_cache.policy.block_size
        = p0.block_size ∧
    (InclusiveCache.make policies whp wmp mp uvc).st.victim_cache.policy.block_num = 8 ∧
    (InclusiveCache.make policies whp wmp mp uvc).st.victim_cache.policy.associativity
        = 1 ∧
    (InclusiveCache.make policies whp wmp mp uvc).st.victim_cache.policy.hit_latency
        = 0 ∧
    (InclusiveCache.make policies whp wmp mp uvc).st.victim_cache.blocks.length = 8 := by
  cases policies with
  | nil => simp at h
  | cons q qs =>
    simp only [List.head?] at h
    cases h
    have hdiv : 8 * p0.block_size / p0.block_size = 8 := Nat.mul_div_cancel 8 hbs
    refine ⟨rfl, rfl, hdiv, rfl, rfl, ?_⟩
    simp [InclusiveCache.make, Cache.make, CachePolicy.make, hdiv]

/-- Computation rule of the `Except` monad bind on success. -/
theorem except_bind_ok {e a b : Type} (x : a) (f : a → Except e b) :
    (Except.ok x >>= f) = f x := rfl

/-- Computation rule of the `Except` monad bind on failure. -/
theorem except_bind_error {e a b : Type} (err : e) (f : a → Except e b) :
    ((Except.error err : Except e a) >>= f) = Except.error err := rfl

/-- An even half-word store never reports an alignment error: the
downstream byte stores can only succeed or report `WriteUnallocated`. -/
theorem MMU.set16_not_alignment_of_even (m : MMU) (a v : Nat) (h : a % 2 = 0) :
    isAlignmentError (m.set16 a v) = false := by
  unfold MMU.set16
  rcases MMU.set8_cases m a (v % 256) with ⟨m1, h1⟩ | h1
  · rcases MMU.set8_cases m1 ((a + 1) % M32) ((v >>> 8) % 256) with ⟨m2, h2⟩ | h2 <;>
      simp [h, h1, h2, isAlignmentError, except_bind_ok, except_bind_error]
  · simp [h, h1, isAlignmentError, except_bind_ok, except_bind_error]

/-- An even half-word load never reports an alignment error. -/
theorem MMU.get16_not_alignment_of_even (m : MMU) (a : Nat) (h : a % 2 = 0) :
    isAlignmentError (m.get16 a) = false := by
  unfold MMU.get16
  rcases MMU.get8_cases m a with ⟨v1, h1⟩ | h1
  · rcases MMU.get8_cases m ((a + 1) % M32) with ⟨v2, h2⟩ | h2 <;>
      simp [h, h1, h2, isAlignmentError, except_bind_ok, except_bind_error]
  · simp [h, h1, isAlignmentError, except_bind_ok, except_bind_error]

/-- A half-word store aligned or not: result analysis for the audit of
word stores — an even address yields no alignment error, used for the
two sub-stores of an aligned word store. -/
theorem MMU.set16_cases_of_even (m : MMU) (a v : Nat) (h : a % 2 = 0) :
    (∃ m2, m.set16 a v = .ok m2) ∨
      ∃ b k, m.set16 a v = .error (.AccessError b k) := by
  unfold MMU.set16
  rcases MMU.set8_cases m a (v % 256) with ⟨m1, h1⟩ | h1
  · rcases MMU.set8_cases m1 ((a + 1) % M32) ((v >>> 8) % 256) with ⟨m2, h2⟩ | h2
    · exact Or.inl ⟨m2, by simp [h, h1, h2, except_bind_ok, except_bind_error]⟩
    · exact Or.inr ⟨(a + 1) % M32, .WriteUnallocated,
        by simp [h, h1, h2, except_bind_ok, except_bind_error]⟩
  · exact Or.inr ⟨a, .WriteUnallocated,
      by simp [h, h1, except_bind_ok, except_bind_error]⟩

/-- A half-word load at an even address: success or an access error. -/
theorem MMU.get16_cases_of_even (m : MMU) (a : Nat) (h : a % 2 = 0) :
    (∃ v, m.get16 a = .ok v) ∨ ∃ b k, m.get16 a = .error (.AccessError b k) := by
  unfold MMU.get16
  rcases MMU.get8_cases m a with ⟨v1, h1⟩ | h1
  · rcases MMU.get8_cases m ((a + 1) % M32) with ⟨v2, h2⟩ | h2
    · exact Or.inl ⟨v1 ||| v2 <<< 8, by simp [h, h1, h2, except_bind_ok, except_bind_error]⟩
    · exact Or.inr ⟨(a + 1) % M32, .ReadUnallocated,
        by simp [h, h1, h2, except_bind_ok, except_bind_error]⟩
  · exact Or.inr ⟨a, .ReadUnallocated,
      by simp [h, h1, except_bind_ok, except_bind_error]⟩

/-- Word-aligned addresses stay even after the wrapping `+ 2`. -/
theorem even_add_two_mod (a : Nat) (h : a % 4 = 0) : ((a + 2) % M32) % 2 = 0 := by
  have h2 : (2 : Nat) ∣ M32 := by decide
  rw [Nat.mod_mod_of_dvd _ h2]
  omega

/-- C6: MMU half accesses fail with an alignment error exactly on odd
addresses and word accesses exactly on addresses not divisible by 4;
moreover the alignment check comes first, so a misaligned access reports
precisely `AlignmentError` (never `ReadUnallocated`/`WriteUnallocated`),
whatever the page table holds. -/
theorem mmu_alignment_checks (m : MMU) (a v : Nat) :
    (isAlignmentError (m.set16 a v) = true ↔ a % 2 ≠ 0) ∧
    (isAlignmentError (m.get16 a) = true ↔ a % 2 ≠ 0) ∧
    (isAlignmentError (m.set32 a v) = true ↔ a % 4 ≠ 0) ∧
    (isAlignmentError (m.get32 a) = true ↔ a % 4 ≠ 0) ∧
    (a % 2 ≠ 0 →
      m.set16 a v = .error (.AlignmentError a 2) ∧
        m.get16 a = .error (.AlignmentError a 2)) ∧
    (a % 4 ≠ 0 →
      m.set32 a v = .error (.AlignmentError a 4) ∧
        m.get32 a = .error (.AlignmentError a 4)) := by
  have hs16 : a % 2 ≠ 0 → m.set16 a v = .error (.AlignmentError a 2) := by
    intro h; unfold MMU.set16; simp [h]
  have hg16 : a % 2 ≠ 0 → m.get16 a = .error (.AlignmentError a 2) := by
    intro h; unfold MMU.get16; simp [h]
  have hs32 : a % 4 ≠ 0 → m.set32 a v = .error (.AlignmentError a 4) := by
    intro h; unfold MMU.set32; simp [h]
  have hg32 : a % 4 ≠ 0 → m.get32 a = .error (.AlignmentError a 4) := by
    intro h; unfold MMU.get32; simp [h]
  refine ⟨?_, ?_, ?_, ?_, fun h => ⟨hs16 h, hg16 h⟩, fun h => ⟨hs32 h, hg32 h⟩⟩
  · constructor
    · intro hal
      by_cases h : a % 2 = 0
      · rw [m.set16_not_alignment_of_even a v h] at hal; cases hal
      · exact h
    · intro h; rw [hs16 h]; rfl
  · constructor
    · intro hal
      by_cases h : a % 2 = 0
      · rw [m.get16_not_alignment_of_even a h] at hal; cases hal
      · exact h
    · intro h; rw [hg16 h]; rfl
  · constructor
    · intro hal
      by_cases h : a % 4 = 0
      · have he : a % 2 = 0 := by omega
        have he2 : ((a + 2) % M32) % 2 = 0 := even_add_two_mod a h
        unfold MMU.set32 at hal
        rcases MMU.set16_cases_of_even m a (v % 65536) he with ⟨m1, h1⟩ | h1
        · rcases MMU.set16_cases_of_even m1 ((a + 2) % M32) ((v >>> 16) % 65536) he2 with
            ⟨m2, h2⟩ | ⟨b, k, h2⟩
          · simp [h, h1, h2, isAlignmentError, except_bind_ok, except_bind_error] at hal
          · simp [h, h1, h2, isAlignmentError, except_bind_ok, except_bind_error] at hal
        · rcases h1 with ⟨b, k, h1⟩
          simp [h, h1, isAlignmentError, except_bind_ok, except_bind_error] at hal
      · exact h
    · intro h; rw [hs32 h]; rfl
  · constructor
    · intro hal
      by_cases h : a % 4 = 0
      · have he : a % 2 = 0 := by omega
        have he2 : ((a + 2) % M32) % 2 = 0 := even_add_two_mod a h
        unfold MMU.get32 at hal
        rcases MMU.get16_cases_of_even m a he with ⟨v1, h1⟩ | ⟨b, k, h1⟩
        · rcases MMU.get16_cases_of_even m ((a + 2) % M32) he2 with ⟨v2, h2⟩ | ⟨b, k, h2⟩
          · simp [h, h1, h2, isAlignmentError, except_bind_ok, except_bind_error] at hal
          · simp [h, h1, h2, isAlignmentError, except_bind_ok, except_bind_error] at hal
        · simp [h, h1, isAlignmentError, except_bind_ok, except_bind_error] at hal
      · exact h
    · intro h; rw [hg32 h]; rfl

/-- Witness for C6 at the odd address 3 and the even-but-unaligned
address 6 on a fresh MMU. -/
theorem mmu_alignment_checks_witness :
    (3 : Nat) % 2 ≠ 0 ∧ MMU.make.set16 3 5 = .error (.AlignmentError 3 2) ∧
    (6 : Nat) % 4 ≠ 0 ∧ MMU.make.get32 6 = .error (.AlignmentError 6 4) :=
  ⟨by decide, ((mmu_alignment_checks MMU.make 3 5).2.2.2.2.1 (by decide)).1,
    by decide, ((mmu_alignment_checks MMU.make 6 0).2.2.2.2.2 (by decide)).2⟩

/-- Witness for C7's amended statement at a concrete one-level policy
list. -/
theorem victim_cache_shape_witness :
    [CachePolicy.make 16 4 1 1].head? = some (CachePolicy.make 16 4 1 1) ∧
    0 < (CachePolicy.make 16 4 1 1).block_size ∧
    (InclusiveCache.make [CachePolicy.make 16 4 1 1] .WriteBack .WriteAllocate 100
        true).st.victim_cache.policy.associativity = 1 :=
  ⟨rfl, by decide,
    (victim_cache_shape [CachePolicy.make 16 4 1 1] (CachePolicy.make 16 4 1 1)
      .WriteBack .WriteAllocate 100 true rfl (by decide)).2.2.2.1⟩

/-- C2 (failing evaluation): on a valid two-level exclusive hierarchy
whose level-1 block (4 bytes) spans two level-0 blocks (2 bytes), two
single-byte writes to the allocated page — at address 0 and then at
address 2 — leave level 0 holding the valid block with base address 2
while level 1 holds a valid block whose line covers address 2, so
`verify_exclusiveness` finds `lookup(1, 2) = Some 0` for a valid level-0
block and its assertion fails: the post-run exclusion audit does not
pass.  (Writing down the evicted level-0 line re-creates the level-1
line that had just been promoted.)  Both policies satisfy
`CachePolicy::is_valid`. -/
theorem exclusive_audit_violation :
    (CachePolicy.make 2 2 1 1).is_valid = true ∧
    (CachePolicy.make 4 4 1 1).is_valid = true ∧
    exclusionCexRun.st.exclusionAudit = false ∧
    ((exclusionCexRun.st.cacheD 0).blocks.get? 0).map Block.valid = some true ∧
    (exclusionCexRun.st.cacheD 0).get_address
        (((exclusionCexRun.st.cacheD 0).blocks.get? 0).getD default) = 2 ∧
    exclusionCexRun.st.lookup 1 2 = some 0 := by
  refine ⟨by decide, by decide, by decide, by decide, by decide, by decide⟩

/-- Characterization of a hierarchy byte read (`get8`): the value comes
straight from the MMU, which is left untouched; only the cache-side
state advances. -/
theorem Storage.get8_eq (s : Storage) (a : Nat) (sc : Option Int) :
    s.get8 a sc = (s.mmu.get8 a,
      ⟨((s.penalize_worst).st.access a .Read sc).1, s.mmu⟩,
      ((s.penalize_worst).st.access a .Read sc).2) := by
  rcases h : (s.penalize_worst).st.access a .Read sc with ⟨st2, sc2⟩
  simp only [Storage.get8]
  rw [h]
  rfl

/-- Characterization of a successful hierarchy byte write (`set8`). -/
theorem Storage.set8_ok (s : Storage) (a v : Nat) (sc : Option Int) (m2 : MMU)
    (h : s.mmu.set8 a v = .ok m2) :
    s.set8 a v sc = (.ok (),
      ⟨((s.penalize_worst).st.access a .Write sc).1, m2⟩,
      ((s.penalize_worst).st.access a .Write sc).2) := by
  rcases hacc : (s.penalize_worst).st.access a .Write sc with ⟨st2, sc2⟩
  have h2 : (s.penalize_worst).mmu.set8 a v = .ok m2 := h
  simp only [Storage.set8]
  rw [hacc, h2]

/-- Characterization of a failed hierarchy byte write: the MMU is left
as it was, but the cache-side access has still happened. -/
theorem Storage.set8_err (s : Storage) (a v : Nat) (sc : Option Int) (e : MemoryError)
    (h : s.mmu.set8 a v = .error e) :
    s.set8 a v sc = (.error e,
      ⟨((s.penalize_worst).st.access a .Write sc).1, s.mmu⟩,
      ((s.penalize_worst).st.access a .Write sc).2) := by
  rcases hacc : (s.penalize_worst).st.access a .Write sc with ⟨st2, sc2⟩
  have h2 : (s.penalize_worst).mmu.set8 a v = .error e := h
  simp only [Storage.set8]
  rw [hacc, h2]
  rfl

/-- A hierarchy half-word read returns exactly the direct-on-MMU
two-byte value and never touches the MMU. -/
theorem Storage.get16_ref (s : Storage) (a : Nat) (sc : Option Int) :
    (s.get16 a sc).1 = s.mmu.getDirect a 2 ∧ ((s.get16 a sc).2.1).mmu = s.mmu := by
  unfold Storage.get16 MMU.getDirect
  rcases h1 : s.mmu.get8 a with e1 | low
  · simp [Storage.get8_eq, h1, except_bind_error]
  · rcases h2 : s.mmu.get8 ((a + 1) % M32) with e2 | high <;>
      simp [Storage.get8_eq, h1, h2, except_bind_ok, except_bind_error]

/-- The four-byte direct read is the two two-byte direct reads. -/
theorem MMU.getDirect4_eq (m : MMU) (a : Nat) :
    m.getDirect a 4 =
      (do
        let low ← m.getDirect a 2
        let high ← m.getDirect ((a + 2) % M32) 2
        Except.ok (low ||| high <<< 16)) := by
  unfold MMU.getDirect
  rcases h1 : m.get8 a with e1 | b0
  · simp [h1, except_bind_error]
  · rcases h2 : m.get8 ((a + 1) % M32) with e2 | b1
    · simp [h1, h2, except_bind_ok, except_bind_error]
    · rcases h3 : m.get8 ((a + 2) % M32) with e3 | b2
      · simp [h1, h2, h3, except_bind_ok, except_bind_error]
      · rcases h4 : m.get8 (((a + 2) % M32 + 1) % M32) with e4 | b3 <;>
          simp [h1, h2, h3, h4, except_bind_ok, except_bind_error]

/-- A hierarchy word read returns exactly the direct-on-MMU four-byte
value and never touches the MMU. -/
theorem Storage.get32_ref (s : Storage) (a : Nat) (sc : Option Int) :
    (s.get32 a sc).1 = s.mmu.getDirect a 4 ∧ ((s.get32 a sc).2.1).mmu = s.mmu := by
  rw [MMU.getDirect4_eq]
  rcases hg : s.get16 a sc with ⟨r1, s1, sc1⟩
  have h1 := Storage.get16_ref s a sc
  rw [hg] at h1
  replace h1 : r1 = s.mmu.getDirect a 2 ∧ s1.mmu = s.mmu := h1
  rcases h1 with ⟨h1v, h1m⟩
  rcases hg2 : s1.get16 ((a + 2) % M32) none with ⟨r2, s2, sc2⟩
  have h2 := Storage.get16_ref s1 ((a + 2) % M32) none
  rw [hg2] at h2
  replace h2 : r2 = s1.mmu.getDirect ((a + 2) % M32) 2 ∧ s2.mmu = s1.mmu := h2
  rcases h2 with ⟨h2v, h2m⟩
  rw [h1m] at h2v
  unfold Storage.get32
  rw [hg]
  rcases hd1 : s.mmu.getDirect a 2 with e1 | low
  · rw [hd1] at h1v
    subst h1v
    simp [except_bind_error, h1m]
  · rw [hd1] at h1v
    subst h1v
    rcases hd2 : s.mmu.getDirect ((a + 2) % M32) 2 with e2 | high <;>
      rw [hd2] at h2v <;> subst h2v <;>
      simp [hg2, except_bind_ok, except_bind_error, h2m, h1m]

/-- Hierarchy sized reads return exactly the direct-on-MMU value for
every step and never touch the MMU. -/
theorem Storage.get_ref (s : Storage) (a step : Nat) (sc scw : Option Int) :
    (s.get a step sc scw).1 = s.mmu.getDirect a step ∧
      ((s.get a step sc scw).2.1).mmu = s.mmu := by
  rcases step with _ | _ | _ | _ | _ | n
  · exact ⟨rfl, rfl⟩
  · rcases hg : s.get8 a sc with ⟨r, s2, sc2⟩
    have h := Storage.get8_eq s a sc
    rw [hg] at h
    replace h : r = s.mmu.get8 a ∧ s2.mmu = s.mmu :=
      ⟨congrArg (fun t => t.1) h, congrArg (fun t => t.2.1.mmu) h⟩
    constructor
    · show (let (r, s2, sc2) := s.get8 a sc; (r, s2, sc2, scw)).1 = _
      rw [hg]
      exact h.1
    · show ((let (r, s2, sc2) := s.get8 a sc; (r, s2, sc2, scw)).2.1).mmu = _
      rw [hg]
      exact h.2
  · rcases hg : s.get16 a sc with ⟨r, s2, sc2⟩
    have h := Storage.get16_ref s a sc
    rw [hg] at h
    replace h : r = s.mmu.getDirect a 2 ∧ s2.mmu = s.mmu := h
    constructor
    · show (let (r, s2, sc2) := s.get16 a sc; (r, s2, sc2, scw)).1 = _
      rw [hg]
      exact h.1
    · show ((let (r, s2, sc2) := s.get16 a sc; (r, s2, sc2, scw)).2.1).mmu = _
      rw [hg]
      exact h.2
  · exact ⟨rfl, rfl⟩
  · rcases hg : s.get32 a sc with ⟨r, s2, sc2⟩
    have h := Storage.get32_ref s a sc
    rw [hg] at h
    replace h : r = s.mmu.getDirect a 4 ∧ s2.mmu = s.mmu := h
    constructor
    · show (let (r, s2, sc2) := s.get32 a sc; (r, s2, sc2, scw)).1 = _
      rw [hg]
      exact h.1
    · show ((let (r, s2, sc2) := s.get32 a sc; (r, s2, sc2, scw)).2.1).mmu = _
      rw [hg]
      exact h.2
  · exact ⟨rfl, rfl⟩

/-- A hierarchy half-word write performs exactly the direct two-byte
store chain on the MMU (same bytes, same order, same partial effects on
failure). -/
theorem Storage.set16_ref (s : Storage) (a v : Nat) (sc : Option Int) :
    ((s.set16 a v sc).2.1).mmu = (mmuSet16Chain s.mmu a v).1 ∧
      (s.set16 a v sc).1 = (mmuSet16Chain s.mmu a v).2 := by
  unfold Storage.set16 mmuSet16Chain
  rcases hm1 : s.mmu.set8 a (v % 256) with e1 | m1
  · rcases hs1 : s.set8 a (v % 256) sc with ⟨r1, s1, sc1⟩
    have e := Storage.set8_err s a (v % 256) sc e1 hm1
    rw [hs1] at e
    have hr1 : r1 = .error e1 := congrArg (fun t => t.1) e
    have hmm1 : s1.mmu = s.mmu := congrArg (fun t => t.2.1.mmu) e
    subst hr1
    simp [hmm1]
  · rcases hs1 : s.set8 a (v % 256) sc with ⟨r1, s1, sc1⟩
    have e := Storage.set8_ok s a (v % 256) sc m1 hm1
    rw [hs1] at e
    have hr1 : r1 = .ok () := congrArg (fun t => t.1) e
    have hmm1 : s1.mmu = m1 := congrArg (fun t => t.2.1.mmu) e
    subst hr1
    rcases hm2 : m1.set8 ((a + 1) % M32) ((v >>> 8) % 256) with e2 | m2
    · rcases hs2 : s1.set8 ((a + 1) % M32) ((v >>> 8) % 256) none with ⟨r2, s2, sc2⟩
      have e2h := Storage.set8_err s1 ((a + 1) % M32) ((v >>> 8) % 256) none e2
        (by rw [hmm1]; exact hm2)
      rw [hs2] at e2h
      have hr2 : r2 = .error e2 := congrArg (fun t => t.1) e2h
      have hmm2 : s2.mmu = s1.mmu := congrArg (fun t => t.2.1.mmu) e2h
      subst hr2
      simp [hs2, hmm2, hmm1, hm2]
    · rcases hs2 : s1.set8 ((a + 1) % M32) ((v >>> 8) % 256) none with ⟨r2, s2, sc2⟩
      have e2h := Storage.set8_ok s1 ((a + 1) % M32) ((v >>> 8) % 256) none m2
        (by rw [hmm1]; exact hm2)
      rw [hs2] at e2h
      have hr2 : r2 = .ok () := congrArg (fun t => t.1) e2h
      have hmm2 : s2.mmu = m2 := congrArg (fun t => t.2.1.mmu) e2h
      subst hr2
      simp [hs2, hmm2, hm2]

/-- A hierarchy word write is the two half-word chains in sequence. -/
theorem Storage.set32_ref (s : Storage) (a v : Nat) (sc : Option Int) :
    ((s.set32 a v sc).2.1).mmu =
      (match (mmuSet16Chain s.mmu a (v % 65536)).2 with
        | .ok _ => (mmuSet16Chain (mmuSet16Chain s.mmu a (v % 65536)).1
            ((a + 2) % M32) ((v >>> 16) % 65536)).1
        | .error _ => (mmuSet16Chain s.mmu a (v % 65536)).1) ∧
      (s.set32 a v sc).1 =
      (match (mmuSet16Chain s.mmu a (v % 65536)).2 with
        | .ok _ => (mmuSet16Chain (mmuSet16Chain s.mmu a (v % 65536)).1
            ((a + 2) % M32) ((v >>> 16) % 65536)).2
        | .error e => .error e) := by
  unfold Storage.set32
  rcases hs1 : s.set16 a (v % 65536) sc with ⟨r1, s1, sc1⟩
  have e1 := Storage.set16_ref s a (v % 65536) sc
  rw [hs1] at e1
  replace e1 : s1.mmu = (mmuSet16Chain s.mmu a (v % 65536)).1 ∧
      r1 = (mmuSet16Chain s.mmu a (v % 65536)).2 := e1
  rcases e1 with ⟨hmm1, hr1⟩
  rcases hc1 : (mmuSet16Chain s.mmu a (v % 65536)).2 with e1v | u
  · rw [hc1] at hr1
    subst hr1
    simp [hmm1]
  · rw [hc1] at hr1
    subst hr1
    rcases hs2 : s1.set16 ((a + 2) % M32) ((v >>> 16) % 65536) none with ⟨r2, s2, sc2⟩
    have e2 := Storage.set16_ref s1 ((a + 2) % M32) ((v >>> 16) % 65536) none
    rw [hs2] at e2
    replace e2 : s2.mmu = (mmuSet16Chain s1.mmu ((a + 2) % M32) ((v >>> 16) % 65536)).1 ∧
        r2 = (mmuSet16Chain s1.mmu ((a + 2) % M32) ((v >>> 16) % 65536)).2 := e2
    rcases e2 with ⟨hmm2, hr2⟩
    rw [hmm1] at hmm2 hr2
    rcases hc2 : (mmuSet16Chain (mmuSet16Chain s.mmu a (v % 65536)).1
        ((a + 2) % M32) ((v >>> 16) % 65536)).2 with e2v | u2 <;>
      rw [hc2] at hr2 <;> subst hr2 <;> simp [hs2, hmm2]

/-- The direct two-byte write op is the two-byte store chain on the
`u16`-cast value. -/
theorem MMU.runOpDirect_write2 (m : MMU) (a v : Nat) (sc scw : Option Int) :
    m.runOpDirect (.write a 2 v sc scw) =
      ((mmuSet16Chain m a (v % 65536)).1,
        (mmuSet16Chain m a (v % 65536)).2.map fun _ => 0) := by
  unfold MMU.runOpDirect mmuSet16Chain
  rcases h1 : m.set8 a (v % 65536 % 256) with e1 | m1
  · simp [h1, Except.map]
  · rcases h2 : m1.set8 ((a + 1) % M32) ((v % 65536) >>> 8 % 256) with e2 | m2 <;>
      simp [h1, h2, Except.map]

/-- The direct four-byte write op is the two half chains in sequence. -/
theorem MMU.runOpDirect_write4 (m : MMU) (a v : Nat) (sc scw : Option Int) :
    m.runOpDirect (.write a 4 v sc scw) =
      (match (mmuSet16Chain m a (v % 65536)).2 with
        | .ok _ => ((mmuSet16Chain (mmuSet16Chain m a (v % 65536)).1
              ((a + 2) % M32) ((v >>> 16) % 65536)).1,
            (mmuSet16Chain (mmuSet16Chain m a (v % 65536)).1
              ((a + 2) % M32) ((v >>> 16) % 65536)).2.map fun _ => 0)
        | .error e => ((mmuSet16Chain m a (v % 65536)).1, .error e)) := by
  unfold MMU.runOpDirect mmuSet16Chain
  rcases h1 : m.set8 a (v % 65536 % 256) with e1 | m1
  · simp [h1, Except.map]
  · rcases h2 : m1.set8 ((a + 1) % M32) ((v % 65536) >>> 8 % 256) with e2 | m2
    · simp [h1, h2, Except.map]
    · rcases h3 : m2.set8 ((a + 2) % M32) ((v >>> 16) % 65536 % 256) with e3 | m3
      · simp [h1, h2, h3, Except.map]
      · rcases h4 : m3.set8 ((a + 2 + 1) % M32)
            (((v >>> 16) % 65536) >>> 8 % 256) with e4 | m4 <;>
          simp [h1, h2, h3, h4, Except.map]

/-- Hierarchy sized writes leave the MMU exactly as the direct byte-wise
writes do, for every step, with matching results. -/
theorem Storage.set_ref (s : Storage) (a step v : Nat) (sc scw : Option Int) :
    ((s.set a step v sc scw).2.1).mmu = (s.mmu.runOpDirect (.write a step v sc scw)).1 ∧
      ((s.set a step v sc scw).1).map (fun _ => (0 : Nat)) =
        (s.mmu.runOpDirect (.write a step v sc scw)).2 := by
  rcases step with _ | _ | _ | _ | _ | n
  · exact ⟨rfl, rfl⟩
  · rcases hs : s.set8 a (v % 256) sc with ⟨r, s2, sc2⟩
    rcases hm : s.mmu.set8 a (v % 256) with e | m2
    · have e1 := Storage.set8_err s a (v % 256) sc e hm
      rw [hs] at e1
      have hr : r = .error e := congrArg (fun t => t.1) e1
      have hmm : s2.mmu = s.mmu := congrArg (fun t => t.2.1.mmu) e1
      subst hr
      constructor
      · show ((let (r, s2, sc2) := s.set8 a (v % 256) sc; (r, s2, sc2, _)).2.1).mmu = _
        rw [hs]
        simp [MMU.runOpDirect, hm, hmm]
      · show ((let (r, s2, sc2) := s.set8 a (v % 256) sc; (r, s2, sc2, _)).1).map _ = _
        rw [hs]
        simp [MMU.runOpDirect, hm, Except.map]
    · have e1 := Storage.set8_ok s a (v % 256) sc m2 hm
      rw [hs] at e1
      have hr : r = .ok () := congrArg (fun t => t.1) e1
      have hmm : s2.mmu = m2 := congrArg (fun t => t.2.1.mmu) e1
      subst hr
      constructor
      · show ((let (r, s2, sc2) := s.set8 a (v % 256) sc; (r, s2, sc2, _)).2.1).mmu = _
        rw [hs]
        simp [MMU.runOpDirect, hm, hmm]
      · show ((let (r, s2, sc2) := s.set8 a (v % 256) sc; (r, s2, sc2, _)).1).map _ = _
        rw [hs]
        simp [MMU.runOpDirect, hm, Except.map]
  · rcases hs : s.set16 a (v % 65536) sc with ⟨r, s2, sc2⟩
    have e1 := Storage.set16_ref s a (v % 65536) sc
    rw [hs] at e1
    replace e1 : s2.mmu = (mmuSet16Chain s.mmu a (v % 65536)).1 ∧
        r = (mmuSet16Chain s.mmu a (v % 65536)).2 := e1
    rw [MMU.runOpDirect_write2]
    constructor
    · show ((let (r, s2, sc2) := s.set16 a (v % 65536) sc; (r, s2, sc2, _)).2.1).mmu = _
      rw [hs]
      exact e1.1
    · show ((let (r, s2, sc2) := s.set16 a (v % 65536) sc; (r, s2, sc2, _)).1).map _ = _
      rw [hs]
      rw [e1.2]
  · exact ⟨rfl, rfl⟩
  · rcases hs : s.set32 a v sc with ⟨r, s2, sc2⟩
    have e1 := Storage.set32_ref s a v sc
    rw [hs] at e1
    rw [MMU.runOpDirect_write4]
    rcases hc1 : (mmuSet16Chain s.mmu a (v % 65536)).2 with e | u
    · rw [hc1] at e1
      replace e1 : s2.mmu = (mmuSet16Chain s.mmu a (v % 65536)).1 ∧ r = .error e := e1
      constructor
      · show ((let (r, s2, sc2) := s.set32 a v sc; (r, s2, sc2, _)).2.1).mmu = _
        rw [hs]
        exact e1.1
      · show ((let (r, s2, sc2) := s.set32 a v sc; (r, s2, sc2, _)).1).map _ = _
        rw [hs]
        rw [e1.2]
        rfl
    · rw [hc1] at e1
      replace e1 : s2.mmu = (mmuSet16Chain (mmuSet16Chain s.mmu a (v % 65536)).1
            ((a + 2) % M32) ((v >>> 16) % 65536)).1 ∧
          r = (mmuSet16Chain (mmuSet16Chain s.mmu a (v % 65536)).1
            ((a + 2) % M32) ((v >>> 16) % 65536)).2 := e1
      constructor
      · show ((let (r, s2, sc2) := s.set32 a v sc; (r, s2, sc2, _)).2.1).mmu = _
        rw [hs]
        exact e1.1
      · show ((let (r, s2, sc2) := s.set32 a v sc; (r, s2, sc2, _)).1).map _ = _
        rw [hs]
        rw [e1.2]
  · exact ⟨rfl, rfl⟩

/-- One sized access through any hierarchy refines the direct-on-MMU
access: same result, same final memory. -/
theorem Storage.runOp_ref (s : Storage) (op : MemOp) :
    ((s.runOp op).1).mmu = (s.mmu.runOpDirect op).1 ∧
      (s.runOp op).2 = (s.mmu.runOpDirect op).2 := by
  rcases op with ⟨a, step, sc, scw⟩ | ⟨a, step, v, sc, scw⟩
  · rcases hg : s.get a step sc scw with ⟨r, s2, sc2, scw2⟩
    have h := Storage.get_ref s a step sc scw
    rw [hg] at h
    replace h : r = s.mmu.getDirect a step ∧ s2.mmu = s.mmu := h
    constructor
    · show ((let (r, s2, _, _) := s.get a step sc scw; (s2, r)).1).mmu = _
      rw [hg]
      exact h.2
    · show (let (r, s2, _, _) := s.get a step sc scw; (s2, r)).2 = _
      rw [hg]
      exact h.1
  · rcases hg : s.set a step v sc scw with ⟨r, s2, sc2, scw2⟩
    have h := Storage.set_ref s a step v sc scw
    rw [hg] at h
    replace h : s2.mmu = (s.mmu.runOpDirect (.write a step v sc scw)).1 ∧
        r.map (fun _ => (0 : Nat)) = (s.mmu.runOpDirect (.write a step v sc scw)).2 := h
    constructor
    · show ((let (r, s2, _, _) := s.set a step v sc scw; (s2, r.map fun _ => 0)).1).mmu = _
      rw [hg]
      exact h.1
    · show (let (r, s2, _, _) := s.set a step v sc scw; (s2, r.map fun _ => 0)).2 = _
      rw [hg]
      exact h.2

/-- C9: for every hierarchy variant and configuration, every initial MMU
state and every sequence of sized accesses, the values read (and write
results) and the final MMU contents are identical to the same sequence
performed directly on the MMU: cache blocks carry only metadata, so
cache state never influences any data value read or stored. -/
theorem storage_run_refines_mmu (s : Storage) (ops : List MemOp) :
    ((s.run ops).1).mmu = (s.mmu.runDirect ops).1 ∧
      (s.run ops).2 = (s.mmu.runDirect ops).2 := by
  induction ops generalizing s with
  | nil => exact ⟨rfl, rfl⟩
  | cons op ops ih =>
    rcases hop : s.runOp op with ⟨s2, r⟩
    rcases hopd : s.mmu.runOpDirect op with ⟨m2, rd⟩
    have h := Storage.runOp_ref s op
    rw [hop, hopd] at h
    replace h : s2.mmu = m2 ∧ r = rd := h
    have h2 := ih s2
    rw [h.1] at h2
    rcases hrun : s2.run ops with ⟨s3, rs⟩
    rcases hrund : m2.runDirect ops with ⟨m3, rsd⟩
    rw [hrun, hrund] at h2
    replace h2 : s3.mmu = m3 ∧ rs = rsd := h2
    unfold Storage.run MMU.runDirect
    rw [hop, hopd]
    simp [hrun, hrund, h.2, h2.1, h2.2]

/-- Mapping a result value does not change whether it is an alignment
error. -/
theorem isAlignmentError_map {α β : Type} (r : Except MemoryError α) (f : α → β) :
    isAlignmentError (r.map f) = isAlignmentError r := by
  rcases r with e | x
  · cases e <;> rfl
  · rfl

/-- A unit result whose image under the zero map is a success is itself
the success. -/
theorem except_unit_map_ok (r : Except MemoryError Unit)
    (h : r.map (fun _ => (0 : Nat)) = .ok 0) : r = .ok () := by
  rcases r with e | u
  · exact absurd h (by simp [Except.map])
  · rfl

/-- A direct two-byte read never produces an alignment error. -/
theorem MMU.getDirect2_not_alignment (m : MMU) (a : Nat) :
    isAlignmentError (m.getDirect a 2) = false := by
  unfold MMU.getDirect
  rcases m.get8_cases a with ⟨v1, h1⟩ | h1
  · rcases m.get8_cases ((a + 1) % M32) with ⟨v2, h2⟩ | h2 <;>
      simp [h1, h2, except_bind_ok, except_bind_error, isAlignmentError]
  · simp [h1, except_bind_error, isAlignmentError]

/-- Direct sized reads never produce an alignment error: every failure
is an `AccessError` or `InvalidSize`. -/
theorem MMU.getDirect_not_alignment (m : MMU) (a step : Nat) :
    isAlignmentError (m.getDirect a step) = false := by
  rcases step with _ | _ | _ | _ | _ | n
  · rfl
  · exact m.get8_not_alignment a
  · exact m.getDirect2_not_alignment a
  · rfl
  · rw [MMU.getDirect4_eq]
    rcases hd1 : m.getDirect a 2 with e1 | low
    · have h := m.getDirect2_not_alignment a
      rw [hd1] at h
      simpa [except_bind_error, isAlignmentError] using h
    · rcases hd2 : m.getDirect ((a + 2) % M32) 2 with e2 | high
      · have h := m.getDirect2_not_alignment ((a + 2) % M32)
        rw [hd2] at h
        simpa [except_bind_ok, except_bind_error, isAlignmentError] using h
      · simp [except_bind_ok, isAlignmentError]
  · rfl

/-- The half-word store chain never produces an alignment error. -/
theorem mmuSet16Chain_not_alignment (m : MMU) (a v : Nat) :
    isAlignmentError (mmuSet16Chain m a v).2 = false := by
  unfold mmuSet16Chain
  rcases MMU.set8_cases m a (v % 256) with ⟨m1, h1⟩ | h1
  · rcases MMU.set8_cases m1 ((a + 1) % M32) ((v >>> 8) % 256) with ⟨m2, h2⟩ | h2 <;>
      simp [h1, h2, isAlignmentError]
  · simp [h1, isAlignmentError]

/-- Direct sized writes never produce an alignment error. -/
theorem MMU.runOpDirect_write_not_alignment (m : MMU) (a step v : Nat)
    (sc scw : Option Int) :
    isAlignmentError (m.runOpDirect (.write a step v sc scw)).2 = false := by
  rcases step with _ | _ | _ | _ | _ | n
  · rfl
  · show isAlignmentError (match m.set8 a (v % 256) with
      | .ok m2 => ((m2 : MMU), (.ok 0 : Except MemoryError Nat))
      | .error e => (m, .error e)).2 = false
    rcases MMU.set8_cases m a (v % 256) with ⟨m2, h⟩ | h <;> simp [h, isAlignmentError]
  · rw [MMU.runOpDirect_write2]
    rw [isAlignmentError_map]
    exact mmuSet16Chain_not_alignment m a (v % 65536)
  · rfl
  · rw [MMU.runOpDirect_write4]
    rcases hc1 : (mmuSet16Chain m a (v % 65536)).2 with e | u
    · have h := mmuSet16Chain_not_alignment m a (v % 65536)
      rw [hc1] at h
      cases e
      case AlignmentError => exact h
      all_goals rfl
    · have h := mmuSet16Chain_not_alignment (mmuSet16Chain m a (v % 65536)).1
        ((a + 2) % M32) ((v >>> 16) % 65536)
      simpa [isAlignmentError_map] using h
  · rfl

/-- A byte load on an allocated page succeeds. -/
theorem MMU.get8_ok_of_page_exists (m : MMU) (a : Nat) (h : m.page_exists a = true) :
    ∃ v, m.get8 a = .ok v := by
  unfold MMU.page_exists at h
  unfold MMU.get8
  rcases h1 : m.data (MMU.get_first_level_index a) with _ | sl
  · simp [h1] at h
  · simp only [h1] at h
    rcases h2 : sl (MMU.get_second_level_index a) with _ | page
    · simp [h2] at h
    · exact ⟨page (MMU.get_page_offset a), by simp [h1, h2]⟩

/-- A byte store on an allocated page succeeds. -/
theorem MMU.set8_ok_of_page_exists (m : MMU) (a v : Nat) (h : m.page_exists a = true) :
    ∃ m2, m.set8 a v = .ok m2 := by
  unfold MMU.page_exists at h
  unfold MMU.set8
  rcases h1 : m.data (MMU.get_first_level_index a) with _ | sl
  · simp [h1] at h
  · simp only [h1] at h
    rcases h2 : sl (MMU.get_second_level_index a) with _ | page
    · simp [h2] at h
    · refine ⟨⟨fun i2 => if i2 = MMU.get_first_level_index a then
          some (fun j2 => if j2 = MMU.get_second_level_index a then
              some (fun k2 => if k2 = MMU.get_page_offset a then v % 256 else page k2)
            else sl j2)
        else m.data i2⟩, ?_⟩
      simp only [h1, h2]

/-- A successful byte store preserves which pages are allocated. -/
theorem MMU.set8_preserves_page_exists (m : MMU) (a v : Nat) (m2 : MMU)
    (h : m.set8 a v = .ok m2) (b : Nat) : m2.page_exists b = m.page_exists b := by
  unfold MMU.set8 at h
  rcases h1 : m.data (MMU.get_first_level_index a) with _ | sl
  · simp [h1] at h
  · simp only [h1] at h
    rcases h2 : sl (MMU.get_second_level_index a) with _ | page
    · simp [h2] at h
    · simp only [h2] at h
      have hm2 := (Except.ok.injEq _ _).mp h.symm
      subst hm2
      unfold MMU.page_exists
      by_cases hi : MMU.get_first_level_index b = MMU.get_first_level_index a
      · simp only [hi, if_pos rfl]
        by_cases hj : MMU.get_second_level_index b = MMU.get_second_level_index a
        · simp [hj, h1, h2]
        · simp [hj, hi, h1]
      · simp [hi, h1]

/-- On allocated pages the half-word store chain succeeds and preserves
page allocation. -/
theorem mmuSet16Chain_ok_of_pages (m : MMU) (a v : Nat)
    (h1 : m.page_exists a = true) (h2 : m.page_exists ((a + 1) % M32) = true) :
    ∃ m2, mmuSet16Chain m a v = (m2, .ok ()) ∧
      ∀ b, m2.page_exists b = m.page_exists b := by
  obtain ⟨m1, hm1⟩ := m.set8_ok_of_page_exists a (v % 256) h1
  have hp1 := MMU.set8_preserves_page_exists m a (v % 256) m1 hm1
  obtain ⟨m2, hm2⟩ := m1.set8_ok_of_page_exists ((a + 1) % M32) ((v >>> 8) % 256)
    (by rw [hp1]; exact h2)
  have hp2 := MMU.set8_preserves_page_exists m1 ((a + 1) % M32) ((v >>> 8) % 256) m2 hm2
  refine ⟨m2, ?_, fun b => by rw [hp2 b, hp1 b]⟩
  unfold mmuSet16Chain
  simp [hm1, hm2]

/-- C10: sized accesses through the storage hierarchy perform no
alignment check.  For every storage state, address, step and stall
sinks, neither a sized read nor a sized write ever returns an alignment
error; and on allocated pages a two-byte access at any address —
including every odd address — succeeds, assembling the value from the
bytes at `a` and `a + 1`, as does a four-byte access at any address not
divisible by 4. -/
theorem hierarchy_sized_no_alignment (s : Storage) (a step v : Nat)
    (sc scw : Option Int) :
    isAlignmentError (s.get a step sc scw).1 = false ∧
    isAlignmentError (s.set a step v sc scw).1 = false ∧
    (s.mmu.page_exists a = true → s.mmu.page_exists ((a + 1) % M32) = true →
      (∃ low high, s.mmu.get8 a = .ok low ∧ s.mmu.get8 ((a + 1) % M32) = .ok high ∧
          (s.get a 2 sc scw).1 = .ok (low ||| high <<< 8)) ∧
        (s.set a 2 v sc scw).1 = .ok ()) ∧
    (s.mmu.page_exists a = true → s.mmu.page_exists ((a + 1) % M32) = true →
      s.mmu.page_exists ((a + 2) % M32) = true →
      s.mmu.page_exists (((a + 2) % M32 + 1) % M32) = true →
      (∃ w, (s.get a 4 sc scw).1 = .ok w) ∧ (s.set a 4 v sc scw).1 = .ok ()) := by
  refine ⟨?_, ?_, ?_, ?_⟩
  · rw [(Storage.get_ref s a step sc scw).1]
    exact s.mmu.getDirect_not_alignment a step
  · rw [← isAlignmentError_map ((s.set a step v sc scw).1) (fun _ => (0 : Nat)),
      (Storage.set_ref s a step v sc scw).2]
    exact s.mmu.runOpDirect_write_not_alignment a step v sc scw
  · intro hp1 hp2
    obtain ⟨low, hl⟩ := s.mmu.get8_ok_of_page_exists a hp1
    obtain ⟨high, hh⟩ := s.mmu.get8_ok_of_page_exists ((a + 1) % M32) hp2
    constructor
    · refine ⟨low, high, hl, hh, ?_⟩
      rw [(Storage.get_ref s a 2 sc scw).1]
      unfold MMU.getDirect
      simp [hl, hh, except_bind_ok]
    · obtain ⟨m2, hc, _⟩ := mmuSet16Chain_ok_of_pages s.mmu a (v % 65536) hp1 hp2
      apply except_unit_map_ok
      rw [(Storage.set_ref s a 2 v sc scw).2, MMU.runOpDirect_write2, hc]
      rfl
  · intro hp1 hp2 hp3 hp4
    obtain ⟨b0, h0⟩ := s.mmu.get8_ok_of_page_exists a hp1
    obtain ⟨b1, h1⟩ := s.mmu.get8_ok_of_page_exists ((a + 1) % M32) hp2
    obtain ⟨b2, h2⟩ := s.mmu.get8_ok_of_page_exists ((a + 2) % M32) hp3
    obtain ⟨b3, h3⟩ := s.mmu.get8_ok_of_page_exists (((a + 2) % M32 + 1) % M32) hp4
    have h3n : s.mmu.get8 ((a + 2 + 1) % M32) = .ok b3 := by
      rw [← Nat.mod_add_mod]
      exact h3
    constructor
    · refine ⟨(b0 ||| b1 <<< 8) ||| (b2 ||| b3 <<< 8) <<< 16, ?_⟩
      rw [(Storage.get_ref s a 4 sc scw).1]
      unfold MMU.getDirect
      simp [h0, h1, h2, h3, h3n, except_bind_ok]
    · obtain ⟨mA, hcA, hpA⟩ := mmuSet16Chain_ok_of_pages s.mmu a (v % 65536) hp1 hp2
      obtain ⟨mB, hcB, _⟩ := mmuSet16Chain_ok_of_pages mA ((a + 2) % M32)
        ((v >>> 16) % 65536) (by rw [hpA]; exact hp3) (by rw [hpA]; exact hp4)
      apply except_unit_map_ok
      rw [(Storage.set_ref s a 4 v sc scw).2, MMU.runOpDirect_write4]
      simp [hcA, hcB, Except.map]

/-- Witness for C10 at the odd address 1 with step 2 on an allocated
page of a concrete exclusive hierarchy. -/
theorem hierarchy_sized_no_alignment_witness :
    ({ exclusionCexConfig with mmu := (MMU.make.allocate_page 0).2 } : Storage).mmu.page_exists
        1 = true ∧
    ({ exclusionCexConfig with mmu := (MMU.make.allocate_page 0).2 } : Storage).mmu.page_exists
        ((1 + 1) % M32) = true ∧
    (({ exclusionCexConfig with mmu := (MMU.make.allocate_page 0).2 } : Storage).set
        1 2 48879 none none).1 = .ok () :=
  ⟨by decide, by decide,
    ((hierarchy_sized_no_alignment _ 1 2 48879 none none).2.2.1 (by decide) (by decide)).2⟩


theorem list_get?_set_self {α : Type} (l : List α) (k : Nat) (x : α) (h : k < l.length) :
    (l.set k x).get? k = some x := by
  induction l generalizing k with
  | nil => cases h
  | cons hd tl ihl =>
    cases k with
    | zero => rfl
    | succ k2 => exact ihl k2 (Nat.lt_of_succ_lt_succ h)

theorem list_get?_set_other {α : Type} (l : List α) (k j : Nat) (x : α) (h : j ≠ k) :
    (l.set k x).get? j = l.get? j := by
  induction l generalizing k j with
  | nil => rfl
  | cons hd tl ihl =>
    cases k with
    | zero =>
      cases j with
      | zero => exact absurd rfl h
      | succ j2 => rfl
    | succ k2 =>
      cases j with
      | zero => rfl
      | succ j2 => exact ihl k2 j2 (fun he => h (by rw [he]))

theorem StorageState.modifyCache_get_ne (σ : StorageState) (k : Nat) (f : Cache → Cache)
    (j : Nat) (h : j ≠ k) :
    (σ.modifyCache k f).caches.get? j = σ.caches.get? j := by
  unfold StorageState.modifyCache
  rcases hc : σ.caches.get? k with _ | c
  · rfl
  · exact list_get?_set_other σ.caches k j (f c) h

theorem StorageState.modifyCache_get_eq (σ : StorageState) (k : Nat) (f : Cache → Cache) :
    (σ.modifyCache k f).caches.get? k = (σ.caches.get? k).map f := by
  unfold StorageState.modifyCache
  rcases hc : σ.caches.get? k with _ | c
  · simp only [hc]
    rfl
  · have hlt : k < σ.caches.length := (List.get?_eq_some.mp hc).1
    simp only [hc]
    exact list_get?_set_self σ.caches k (f c) hlt

theorem StorageState.wbvc_caches (σ : StorageState) (b : Block) (j : Nat) :
    (σ.write_block_to_victim_cache b).caches.get? j = σ.caches.get? j := rfl

theorem ite_caches_get (P : Prop) [Decidable P] (σa σb : StorageState) (j : Nat)
    (x : Option Cache) (ha : σa.caches.get? j = x) (hb : σb.caches.get? j = x) :
    (if P then σa else σb).caches.get? j = x := by
  by_cases h : P
  · rw [if_pos h]; exact ha
  · rw [if_neg h]; exact hb

theorem engine_frame (fuel : Nat) :
    ∀ (σ : StorageState) (c : HCall) (j : Nat), j < c.thr →
      ((engine fuel σ c).1).caches.get? j = σ.caches.get? j := by
  induction fuel with
  | zero =>
    intro σ c j hj
    cases c <;> rfl
  | succ fuel ih =>
    intro σ c j hj
    cases c with
    | inner k a ty sc =>
      replace hj : j < k := hj
      have hne : j ≠ k := Nat.ne_of_lt hj
      have hmiss : ∀ (σx : StorageState) (scx : Option Int),
          (engine fuel σx (.miss k a ty scx)).1.caches.get? j = σx.caches.get? j :=
        fun σx scx => ih σx (.miss k a ty scx) j hj
      have hhit : ∀ (σx : StorageState) (scx : Option Int),
          (engine fuel σx (.hit k a ty scx)).1.caches.get? j = σx.caches.get? j :=
        fun σx scx => ih σx (.hit k a ty scx) j (Nat.lt_succ_of_lt hj)
      simp only [engine]
      by_cases hk : k = σ.n
      · rw [if_pos hk]
      · rw [if_neg hk]
        rcases hl : σ.lookup k a with _ | hit_index
        · simp only [hl]
          rcases hm : engine fuel (if sc.isSome = true then σ.modifyCache k Cache.record_miss
              else σ) (.miss k a ty (sc.map fun _ => σ.penalty k)) with ⟨σ2, target, sc2⟩
          have hfr := hmiss (if sc.isSome = true then σ.modifyCache k Cache.record_miss else σ)
            (sc.map fun _ => σ.penalty k)
          rw [hm] at hfr
          replace hfr : σ2.caches.get? j = _ := hfr
          simp only [hm]
          have h1 : (if sc.isSome = true then σ.modifyCache k Cache.record_miss
              else σ).caches.get? j = σ.caches.get? j :=
            ite_caches_get _ _ _ _ _ (StorageState.modifyCache_get_ne _ _ _ _ hne) rfl
          rcases target with _ | ti
          · rw [hfr, h1]
          · rw [StorageState.modifyCache_get_ne _ _ _ _ hne, hfr, h1]
        · simp only [hl]
          rcases hm : engine fuel (if sc.isSome = true then σ.modifyCache k Cache.record_hit
              else σ) (.hit k a ty (sc.map fun _ => σ.penalty k)) with ⟨σ2, r2, sc2⟩
          have hfr := hhit (if sc.isSome = true then σ.modifyCache k Cache.record_hit else σ)
            (sc.map fun _ => σ.penalty k)
          rw [hm] at hfr
          replace hfr : σ2.caches.get? j = _ := hfr
          simp only [hm]
          have h1 : (if sc.isSome = true then σ.modifyCache k Cache.record_hit
              else σ).caches.get? j = σ.caches.get? j :=
            ite_caches_get _ _ _ _ _ (StorageState.modifyCache_get_ne _ _ _ _ hne) rfl
          rw [StorageState.modifyCache_get_ne _ _ _ _ hne, hfr, h1]
    | hit k a ty sc =>
      replace hj : j < k + 1 := hj
      have hin : ∀ (σx : StorageState),
          (engine fuel σx (.inner (k + 1) a .Write none)).1.caches.get? j = σx.caches.get? j :=
        fun σx => ih σx (.inner (k + 1) a .Write none) j hj
      simp only [engine]
      cases hv : σ.variant with
      | exclusive => rfl
      | inclusive =>
        by_cases hc : ty = .Write ∧ σ.write_hit_policy = .WriteThrough
        · rw [if_pos hc]
          rcases hm : engine fuel σ (.inner (k + 1) a .Write none) with ⟨σ2, r2, sc2⟩
          have hfr := hin σ
          rw [hm] at hfr
          replace hfr : σ2.caches.get? j = _ := hfr
          simp only [hm]
          exact hfr
        · rw [if_neg hc]
    | miss k a ty sc =>
      replace hj : j < k := hj
      have hne : j ≠ k := Nat.ne_of_lt hj
      have hne1 : j ≠ k + 1 := Nat.ne_of_lt (Nat.lt_succ_of_lt hj)
      have hin : ∀ (σx : StorageState) (tx : AccessType) (scx : Option Int),
          (engine fuel σx (.inner (k + 1) a tx scx)).1.caches.get? j = σx.caches.get? j :=
        fun σx tx scx => ih σx (.inner (k + 1) a tx scx) j (Nat.lt_succ_of_lt hj)
      have hwt : ∀ (σx : StorageState) (bx : Block),
          (engine fuel σx (.wtnl k bx)).1.caches.get? j = σx.caches.get? j :=
        fun σx bx => ih σx (.wtnl k bx) j (Nat.lt_succ_of_lt hj)
      have hfetch : ∀ (σx : StorageState) (scx : Option Int),
          (engine fuel σx (.fetch k a scx)).1.caches.get? j = σx.caches.get? j :=
        fun σx scx => ih σx (.fetch k a scx) j hj
      simp only [engine]
      cases hv : σ.variant with
      | exclusive =>
        rcases hm : engine fuel (σ.modifyCache k fun c2 =>
            { c2 with blocks := c2.blocks.set ((σ.cacheD k).get_index_to_replace
                ((σ.cacheD k).make_block a).index) ((σ.cacheD k).make_block a) })
            (.inner (k + 1) a ty sc) with ⟨σ2, next, sc2⟩
        have hfr := hin (σ.modifyCache k fun c2 =>
            { c2 with blocks := c2.blocks.set ((σ.cacheD k).get_index_to_replace
                ((σ.cacheD k).make_block a).index) ((σ.cacheD k).make_block a) }) ty sc
        rw [hm] at hfr
        replace hfr : σ2.caches.get? j = _ := hfr
        rcases next with _ | ni
        · simp only [hm]
          rw [hfr, StorageState.modifyCache_get_ne _ _ _ _ hne]
        · simp only [hm]
          refine Eq.trans (ite_caches_get _ _ _ _
            ((σ2.modifyCache (k + 1) fun c2 => c2.reset_block ni).caches.get? j)
            ?_ rfl) ?_
          · exact hwt _ _
          · rw [StorageState.modifyCache_get_ne _ _ _ _ hne1, hfr,
              StorageState.modifyCache_get_ne _ _ _ _ hne]
      | inclusive =>
        by_cases hc : ty = .Read ∨ σ.write_miss_policy = .WriteAllocate
        · rw [if_pos hc]
          rcases hm : engine fuel σ (.fetch k a sc) with ⟨σ2, r2, sc2⟩
          have hfr := hfetch σ sc
          rw [hm] at hfr
          replace hfr : σ2.caches.get? j = _ := hfr
          simp only [hm]
          exact hfr
        · rw [if_neg hc]
          rcases hm : engine fuel σ (.inner (k + 1) a .Write sc) with ⟨σ2, r2, sc2⟩
          have hfr := hin σ .Write sc
          rw [hm] at hfr
          replace hfr : σ2.caches.get? j = _ := hfr
          simp only [hm]
          exact hfr
    | fetch k a sc =>
      replace hj : j < k := hj
      have hne : j ≠ k := Nat.ne_of_lt hj
      have hin : ∀ (σx : StorageState),
          (engine fuel σx (.inner (k + 1) a .Write sc)).1.caches.get? j = σx.caches.get? j :=
        fun σx => ih σx (.inner (k + 1) a .Write sc) j (Nat.lt_succ_of_lt hj)
      have hwt : ∀ (σx : StorageState) (bx : Block),
          (engine fuel σx (.wtnl k bx)).1.caches.get? j = σx.caches.get? j :=
        fun σx bx => ih σx (.wtnl k bx) j (Nat.lt_succ_of_lt hj)
      simp only [engine]
      by_cases hvc : σ.use_victim_cache ∧ k = 0
      · exact absurd hj (by rw [hvc.2]; exact Nat.not_lt_zero j)
      · rw [if_neg hvc]
        rcases hm : engine fuel (if σ.use_victim_cache ∧ k = 0 ∧
            (σ.victim_cache.lookup a).isNone = true
            then { σ with victim_cache := σ.victim_cache.record_miss } else σ)
            (.inner (k + 1) a .Write sc) with ⟨σ2, r2, sc2⟩
        have hfr := hin (if σ.use_victim_cache ∧ k = 0 ∧
            (σ.victim_cache.lookup a).isNone = true
            then { σ with victim_cache := σ.victim_cache.record_miss } else σ)
        rw [hm] at hfr
        replace hfr : σ2.caches.get? j = _ := hfr
        simp only [hm]
        have h0 : (if σ.use_victim_cache ∧ k = 0 ∧ (σ.victim_cache.lookup a).isNone = true
            then { σ with victim_cache := σ.victim_cache.record_miss } else σ).caches.get? j
            = σ.caches.get? j :=
          ite_caches_get _ _ _ _ _ rfl rfl
        apply ite_caches_get
        · rw [hwt]
          apply ite_caches_get
          · rw [StorageState.wbvc_caches, StorageState.modifyCache_get_ne _ _ _ _ hne,
              hfr, h0]
          · rw [StorageState.modifyCache_get_ne _ _ _ _ hne, hfr, h0]
        · apply ite_caches_get
          · rw [StorageState.wbvc_caches, StorageState.modifyCache_get_ne _ _ _ _ hne,
              hfr, h0]
          · rw [StorageState.modifyCache_get_ne _ _ _ _ hne, hfr, h0]
    | wtnl k b =>
      replace hj : j < k + 1 := hj
      simp only [engine]
      by_cases hn : σ.n ≤ k
      · rw [if_pos hn]
      · rw [if_neg hn]
        rcases hm : engine fuel σ (.wloop k ((σ.cacheD k).get_address b) 0
            ((σ.cacheD k).policy.block_size)) with ⟨σ2, r2, sc2⟩
        have hfr := ih σ (.wloop k ((σ.cacheD k).get_address b) 0
            ((σ.cacheD k).policy.block_size)) j hj
        rw [hm] at hfr
        replace hfr : σ2.caches.get? j = _ := hfr
        simp only [hm]
        exact hfr
    | wloop k a i cnt =>
      replace hj : j < k + 1 := hj
      rcases cnt with _ | cnt
      · rfl
      · simp only [engine]
        rcases hm : engine fuel σ (.inner (k + 1) ((a + i) % M32) .Write none) with ⟨σ2, r2, sc2⟩
        have hfr := ih σ (.inner (k + 1) ((a + i) % M32) .Write none) j hj
        rw [hm] at hfr
        replace hfr : σ2.caches.get? j = _ := hfr
        rcases hm2 : engine fuel σ2 (.wloop k a (i + 1) cnt) with ⟨σ3, r3, sc3⟩
        have hfr2 := ih σ2 (.wloop k a (i + 1) cnt) j hj
        rw [hm2] at hfr2
        replace hfr2 : σ3.caches.get? j = _ := hfr2
        simp only [hm, hm2]
        rw [hfr2, hfr]

theorem Cache.access_index_history (c : Cache) (i : Nat) (ty : AccessType) (r : Int) :
    (c.access_index i ty r).history = c.history := by
  unfold Cache.access_index
  rcases hb : c.blocks.get? i with _ | b
  · simp only [hb]
  · simp only [hb]

theorem Cache.fix_block_history (c : Cache) (i : Nat) (address : Nat) :
    (c.fix_block i address).history = c.history := by
  unfold Cache.fix_block
  rcases hb : c.blocks.get? i with _ | b
  · simp only [hb]
  · simp only [hb]

theorem modifyCache_hist_step (σ : StorageState) (k : Nat) (f : Cache → Cache)
    (x : Option CacheHistory) (hf : ∀ c, (f c).history = c.history)
    (h : (σ.caches.get? k).map Cache.history = x) :
    ((σ.modifyCache k f).caches.get? k).map Cache.history = x := by
  rcases hc : σ.caches.get? k with _ | c
  · rw [StorageState.modifyCache_get_eq, hc]
    rw [hc] at h
    exact h
  · rw [StorageState.modifyCache_get_eq, hc]
    rw [hc] at h
    show some (f c).history = x
    rw [hf c]
    exact h

theorem wbvc_hist_step (σ : StorageState) (b : Block) (j : Nat) (x : Option CacheHistory)
    (h : (σ.caches.get? j).map Cache.history = x) :
    ((σ.write_block_to_victim_cache b).caches.get? j).map Cache.history = x := by
  rw [StorageState.wbvc_caches]
  exact h

theorem vc_update_hist (σ : StorageState) (vc : Cache) (j : Nat) (x : Option CacheHistory)
    (h : (σ.caches.get? j).map Cache.history = x) :
    (({ σ with victim_cache := vc } : StorageState).caches.get? j).map Cache.history = x := h

theorem ite_hist_get (P : Prop) [Decidable P] (σa σb : StorageState) (j : Nat)
    (x : Option CacheHistory)
    (ha : (σa.caches.get? j).map Cache.history = x)
    (hb : (σb.caches.get? j).map Cache.history = x) :
    ((if P then σa else σb).caches.get? j).map Cache.history = x := by
  by_cases h : P
  · rw [if_pos h]; exact ha
  · rw [if_neg h]; exact hb

theorem engine_fetch_hist (fuel : Nat) (σ : StorageState) (k a : Nat) (sc : Option Int) :
    ((engine fuel σ (.fetch k a sc)).1.caches.get? k).map Cache.history
      = (σ.caches.get? k).map Cache.history := by
  cases fuel with
  | zero => rfl
  | succ fuel =>
    have hwt : ∀ (σx : StorageState) (bx : Block),
        (engine fuel σx (.wtnl k bx)).1.caches.get? k = σx.caches.get? k :=
      fun σx bx => engine_frame fuel σx (.wtnl k bx) k (Nat.lt_succ_self k)
    have hin : ∀ (σx : StorageState),
        (engine fuel σx (.inner (k + 1) a .Write sc)).1.caches.get? k = σx.caches.get? k :=
      fun σx => engine_frame fuel σx (.inner (k + 1) a .Write sc) k (Nat.lt_succ_self k)
    simp only [engine]
    by_cases hvc : σ.use_victim_cache ∧ k = 0
    · obtain ⟨hu, hk0⟩ := hvc
      subst hk0
      rw [if_pos ⟨hu, rfl⟩]
      rcases hvl : σ.victim_cache.lookup a with _ | hidx
      · simp only [hvl]
        apply ite_hist_get
        · rw [hwt]
          apply ite_hist_get
          · apply wbvc_hist_step
            refine modifyCache_hist_step _ _ _ _ (fun c2 => rfl) ?_
            rw [hin]
            apply ite_hist_get
            · rfl
            · rfl
          · refine modifyCache_hist_step _ _ _ _ (fun c2 => rfl) ?_
            rw [hin]
            apply ite_hist_get
            · rfl
            · rfl
        · apply ite_hist_get
          · apply wbvc_hist_step
            refine modifyCache_hist_step _ _ _ _ (fun c2 => rfl) ?_
            rw [hin]
            apply ite_hist_get
            · rfl
            · rfl
          · refine modifyCache_hist_step _ _ _ _ (fun c2 => rfl) ?_
            rw [hin]
            apply ite_hist_get
            · rfl
            · rfl
      · simp only [hvl]
        apply vc_update_hist
        refine modifyCache_hist_step _ _ _ _ (fun c2 => Cache.fix_block_history c2 _ _) ?_
        apply vc_update_hist
        refine modifyCache_hist_step _ _ _ _ (fun c2 => rfl) ?_
        apply ite_hist_get
        · rfl
        · rfl
    · rw [if_neg hvc]
      apply ite_hist_get
      · rw [hwt]
        apply ite_hist_get
        · apply wbvc_hist_step
          refine modifyCache_hist_step _ _ _ _ (fun c2 => rfl) ?_
          rw [hin]
          apply ite_hist_get
          · rfl
          · rfl
        · refine modifyCache_hist_step _ _ _ _ (fun c2 => rfl) ?_
          rw [hin]
          apply ite_hist_get
          · rfl
          · rfl
      · apply ite_hist_get
        · apply wbvc_hist_step
          refine modifyCache_hist_step _ _ _ _ (fun c2 => rfl) ?_
          rw [hin]
          apply ite_hist_get
          · rfl
          · rfl
        · refine modifyCache_hist_step _ _ _ _ (fun c2 => rfl) ?_
          rw [hin]
          apply ite_hist_get
          · rfl
          · rfl

theorem engine_hit_hist (fuel : Nat) (σ : StorageState) (k a : Nat) (ty : AccessType)
    (sc : Option Int) :
    ((engine fuel σ (.hit k a ty sc)).1.caches.get? k).map Cache.history
      = (σ.caches.get? k).map Cache.history := by
  cases fuel with
  | zero => rfl
  | succ fuel =>
    simp only [engine]
    cases hv : σ.variant with
    | exclusive => rfl
    | inclusive =>
      by_cases hc : ty = .Write ∧ σ.write_hit_policy = .WriteThrough
      · rw [if_pos hc]
        rcases hm : engine fuel σ (.inner (k + 1) a .Write none) with ⟨σ2, r2, sc2⟩
        have hfr := engine_frame fuel σ (.inner (k + 1) a .Write none) k (Nat.lt_succ_self k)
        rw [hm] at hfr
        replace hfr : σ2.caches.get? k = _ := hfr
        simp only [hm]
        rw [hfr]
      · rw [if_neg hc]

theorem engine_miss_hist (fuel : Nat) (σ : StorageState) (k a : Nat) (ty : AccessType)
    (sc : Option Int) :
    ((engine fuel σ (.miss k a ty sc)).1.caches.get? k).map Cache.history
      = (σ.caches.get? k).map Cache.history := by
  cases fuel with
  | zero => rfl
  | succ fuel =>
    have hwt : ∀ (σx : StorageState) (bx : Block),
        (engine fuel σx (.wtnl k bx)).1.caches.get? k = σx.caches.get? k :=
      fun σx bx => engine_frame fuel σx (.wtnl k bx) k (Nat.lt_succ_self k)
    have hne1 : k ≠ k + 1 := Nat.ne_of_lt (Nat.lt_succ_self k)
    simp only [engine]
    cases hv : σ.variant with
    | exclusive =>
      rcases hm : engine fuel (σ.modifyCache k fun c2 =>
          { c2 with blocks := c2.blocks.set ((σ.cacheD k).get_index_to_replace
              ((σ.cacheD k).make_block a).index) ((σ.cacheD k).make_block a) })
          (.inner (k + 1) a ty sc) with ⟨σ2, next, sc2⟩
      have hfr := engine_frame fuel (σ.modifyCache k fun c2 =>
          { c2 with blocks := c2.blocks.set ((σ.cacheD k).get_index_to_replace
              ((σ.cacheD k).make_block a).index) ((σ.cacheD k).make_block a) })
          (.inner (k + 1) a ty sc) k (Nat.lt_succ_self k)
      rw [hm] at hfr
      replace hfr : σ2.caches.get? k = _ := hfr
      rcases next with _ | ni
      · simp only [hm]
        rw [hfr]
        refine modifyCache_hist_step _ _ _ _ (fun c2 => rfl) ?_
        rfl
      · simp only [hm]
        apply ite_hist_get
        · rw [hwt, StorageState.modifyCache_get_ne _ _ _ _ hne1, hfr]
          refine modifyCache_hist_step _ _ _ _ (fun c2 => rfl) ?_
          rfl
        · rw [StorageState.modifyCache_get_ne _ _ _ _ hne1, hfr]
          refine modifyCache_hist_step _ _ _ _ (fun c2 => rfl) ?_
          rfl
    | inclusive =>
      by_cases hc : ty = .Read ∨ σ.write_miss_policy = .WriteAllocate
      · rw [if_pos hc]
        rcases hm : engine fuel σ (.fetch k a sc) with ⟨σ2, r2, sc2⟩
        have hfe := engine_fetch_hist fuel σ k a sc
        rw [hm] at hfe
        replace hfe : (σ2.caches.get? k).map Cache.history = _ := hfe
        simp only [hm]
        exact hfe
      · rw [if_neg hc]
        rcases hm : engine fuel σ (.inner (k + 1) a .Write sc) with ⟨σ2, r2, sc2⟩
        have hfr := engine_frame fuel σ (.inner (k + 1) a .Write sc) k (Nat.lt_succ_self k)
        rw [hm] at hfr
        replace hfr : σ2.caches.get? k = _ := hfr
        simp only [hm]
        rw [hfr]

/-- C4 (amended): for an `access_inner` call at a cache level `k < n`,
the level-`k` hit/miss counters are updated only when the caller
supplied a stall-count sink: with a sink, exactly one counter is
incremented — the hit counter when the lookup of the address in `C[k]`
hits, the miss counter when it misses — and with a `None` sink both
counters are left unchanged (so recursive sub-accesses charged with
`None` are not counted).  `fuel + 1` makes the interpreter take the
call's step; nested calls may exhaust any remaining fuel without
affecting the level-`k` history. -/
theorem access_inner_counter_discipline (fuel : Nat) (σ : StorageState) (k a : Nat)
    (ty : AccessType) (sc : Option Int) (c : Cache)
    (hk : σ.caches.get? k = some c) :
    ((accessInner (fuel + 1) σ k a ty sc).1.caches.get? k).map Cache.history =
      some (if sc.isSome then
          (if (c.lookup a).isSome then
            { c.history with num_hit := c.history.num_hit + 1 }
          else
            { c.history with num_miss := c.history.num_miss + 1 })
        else c.history) := by
  have hlt : k < σ.n := (List.get?_eq_some.mp hk).1
  have hne : ¬(k = σ.n) := Nat.ne_of_lt hlt
  have hlook : σ.lookup k a = c.lookup a := by
    unfold StorageState.lookup StorageState.cacheD
    rw [if_neg (Nat.not_le.mpr hlt), hk]
    rfl
  unfold accessInner
  simp only [engine]
  rw [if_neg hne, hlook]
  rcases hl : c.lookup a with _ | hidx
  · simp only [hl]
    rcases hm : engine fuel (if sc.isSome = true then σ.modifyCache k Cache.record_miss
        else σ) (.miss k a ty (sc.map fun _ => σ.penalty k)) with ⟨σ2, target, sc2⟩
    have hh := engine_miss_hist fuel (if sc.isSome = true then
        σ.modifyCache k Cache.record_miss else σ) k a ty (sc.map fun _ => σ.penalty k)
    rw [hm] at hh
    replace hh : (σ2.caches.get? k).map Cache.history = _ := hh
    have h1 : ((if sc.isSome = true then σ.modifyCache k Cache.record_miss
        else σ).caches.get? k).map Cache.history
        = some (if sc.isSome then
            { c.history with num_miss := c.history.num_miss + 1 } else c.history) := by
      by_cases hs : sc.isSome = true
      · rw [if_pos hs, if_pos hs, StorageState.modifyCache_get_eq, hk]
        rfl
      · rw [if_neg hs, if_neg hs, hk]
        rfl
    rcases target with _ | ti
    · simp only [hm]
      rw [hh, h1]
      simp [hl]
    · simp only [hm]
      refine modifyCache_hist_step _ _ _ _
        (fun c2 => Cache.access_index_history c2 ti ty σ2.ref_counter) ?_
      rw [hh, h1]
      simp [hl]
  · simp only [hl]
    rcases hm : engine fuel (if sc.isSome = true then σ.modifyCache k Cache.record_hit
        else σ) (.hit k a ty (sc.map fun _ => σ.penalty k)) with ⟨σ2, r2, sc2⟩
    have hh := engine_hit_hist fuel (if sc.isSome = true then
        σ.modifyCache k Cache.record_hit else σ) k a ty (sc.map fun _ => σ.penalty k)
    rw [hm] at hh
    replace hh : (σ2.caches.get? k).map Cache.history = _ := hh
    have h1 : ((if sc.isSome = true then σ.modifyCache k Cache.record_hit
        else σ).caches.get? k).map Cache.history
        = some (if sc.isSome then
            { c.history with num_hit := c.history.num_hit + 1 } else c.history) := by
      by_cases hs : sc.isSome = true
      · rw [if_pos hs, if_pos hs, StorageState.modifyCache_get_eq, hk]
        rfl
      · rw [if_neg hs, if_neg hs, hk]
        rfl
    simp only [hm]
    refine modifyCache_hist_step _ _ _ _
      (fun c2 => Cache.access_index_history c2 hidx ty σ2.ref_counter) ?_
    rw [hh, h1]
    simp [hl]

/-- Counterexample to C4 as stated: on a fresh one-level exclusive
hierarchy, an `access_inner` call at level `0 < n` whose lookup misses
but whose stall-count sink is `None` leaves both level-0 counters at
zero — no counter is incremented, contradicting "regardless of whether
the caller supplied a stall-count sink". -/
theorem access_inner_none_sink_uncounted :
    0 < counterCexState.n ∧
    counterCexState.lookup 0 0 = none ∧
    ((accessInner 8 counterCexState 0 0 .Read none).1.caches.get? 0).map Cache.history
      = some { num_hit := 0, num_miss := 0 } := by
  refine ⟨by decide, by decide, by decide⟩

/-- Witness for `access_inner_counter_discipline`: the same access with
a supplied sink increments exactly the miss counter. -/
theorem access_inner_counter_discipline_witness :
    counterCexState.caches.get? 0 = some (Cache.make (CachePolicy.make 4 4 1 1)) ∧
    ((accessInner 8 counterCexState 0 0 .Read (some 0)).1.caches.get? 0).map Cache.history
      = some { num_hit := 0, num_miss := 1 } :=
  ⟨by decide,
    access_inner_counter_discipline 7 counterCexState 0 0 .Read (some 0)
      (Cache.make (CachePolicy.make 4 4 1 1)) (by decide)⟩

end RV32Sim
